import Mathlib

/-!
# Rule engine of `internal/check`: existence, occurrence and substitution rules

A shallow embedding of `existence.go`, `occurrence.go` and `substitution.go`.

* Go strings are Lean strings; the string functions of Go's `strings` package
  that the three files call are written out on the character lists.
* A `*regexp2.Regexp` is a record of the query functions the rules call on it;
  a nil pointer is `none`.
* The helpers of the package that live in other files (`makeAlert`, `re2Loc`,
  `isMatch`, `matchToken`, `formatMessages`, `makeRegexp`, `updateExceptions`),
  `core.ToSentence`, `mapstructure.WeakDecode`, `regexp2.CompileStd` and
  `fmt.Sprintf` are the fields of `Env`: every definition below takes them as a
  parameter.
* A run-time panic (nil dereference, index out of range, failed type
  assertion) is the outer `none` of an `Option`.
-/

namespace Vale

/-! ## Data model -/

/-- The `core.Action` of a rule: a named post-processing behaviour and its parameters. -/
structure Action where
  Name : String
  Params : List String
  deriving DecidableEq, Repr

/-- The fields of the package's `Definition` that the three rule files read or write. -/
structure Definition where
  Action : Vale.Action
  Description : String
  Level : String
  Link : String
  Message : String
  Name : String
  deriving DecidableEq, Repr

/-- The fields of `core.Alert` that the three rule files read or write. A field that a
composite literal does not mention holds its zero value. -/
structure Alert where
  Check : String
  Severity : String
  Span : List Int
  Link : String
  Message : String
  Description : String
  deriving DecidableEq, Repr

/-- A compiled `regexp2.Regexp`, seen through the methods the rules call on it
(`source` is its `String()`). A match location is the Go slice `[]int` it is returned as. -/
structure Regexp where
  source : String
  MatchStringStd : String → Bool
  FindAllStringIndex : String → List (List Int)
  FindAllStringSubmatchIndex : String → List (List Int)

/-- The errors the constructors return, recorded by the `core` constructor that builds
them and the arguments it is given. -/
inductive ConfigError where
  | E201FromTarget (msg target path : String)
  | E201FromPosition (msg path : String) (line : Nat)
  | structureError (err path : String)
  deriving DecidableEq, Repr

/-- A value of Go's `interface{}` as it occurs in a decoded rule file. -/
inductive Value where
  | str (s : String)
  | int (i : Int)
  | bool (b : Bool)
  | strs (l : List String)
  | pairs (l : List (String × String))
  | null
  deriving DecidableEq, Repr

/-- The generic key/value mapping of one rule, `map[string]interface{}`. -/
abbrev baseCheck := List (String × Value)

/-- The part of `core.Config` the constructors read. -/
structure Config where
  WordTemplate : String
  AcceptedTokens : List String

/-- The `Occurrence` rule of `occurrence.go`. -/
structure Occurrence where
  Definition : Vale.Definition
  Ignorecase : Bool
  Max : Int
  Min : Int
  Token : String
  pattern : Option Regexp

/-- The `Existence` rule of `existence.go`. -/
structure Existence where
  Definition : Vale.Definition
  Append : Bool
  IgnoreCase : Bool
  Nonword : Bool
  Raw : List String
  Tokens : List String
  Exceptions : List String
  exceptRe : Option Regexp
  pattern : Option Regexp

/-- The `Substitution` rule of `substitution.go`. The Go map `Swap` is the list of its
entries in the order in which `range` visits them. -/
structure Substitution where
  Definition : Vale.Definition
  Ignorecase : Bool
  Nonword : Bool
  Swap : List (String × String)
  POS : String
  Exceptions : List String
  exceptRe : Option Regexp
  pattern : Option Regexp
  repl : List String

/-- The collaborators of the three rule files that are defined elsewhere. -/
structure Env where
  makeAlert : Definition → List Int → String → Alert
  re2Loc : String → List Int → String
  isMatch : Option Regexp → String → Bool
  matchToken : String → String → Bool → Bool
  formatMessages : String → String → List String → String × String
  ToSentence : List String → String → String
  makeRegexp : String → Bool → Bool → String → Bool → String
  updateExceptions : List String → List String → Except String (Option Regexp)
  CompileStd : String → Except String Regexp
  Sprintf : String → String → String
  decodeOccurrence : baseCheck → Occurrence × Option String
  decodeExistence : baseCheck → Existence × Option String
  decodeSubstitution : baseCheck → Substitution × Option String

/-! ## Go's `strings` package -/

/-- Go's `unicode.IsSpace`. -/
def isSpace (c : Char) : Bool :=
  let n := c.toNat
  n == 0x09 || n == 0x0A || n == 0x0B || n == 0x0C || n == 0x0D || n == 0x20 ||
  n == 0x85 || n == 0xA0 || n == 0x1680 || (0x2000 ≤ n && n ≤ 0x200A) ||
  n == 0x2028 || n == 0x2029 || n == 0x202F || n == 0x205F || n == 0x3000

/-- Go's `strings.TrimSpace`. -/
def TrimSpace (s : String) : String :=
  ⟨((s.data.dropWhile isSpace).reverse.dropWhile isSpace).reverse⟩

/-- Go's `strings.TrimRight`: drop every trailing character that is in `cutset`. -/
def TrimRight (s cutset : String) : String :=
  ⟨(s.data.reverse.dropWhile (fun c => cutset.data.contains c)).reverse⟩

/-- The loop of `strings.Count` for a non-empty `sub`: the number of non-overlapping
occurrences found from the left. `skip` is the number of characters of the last
occurrence that are still to be stepped over. -/
def countFrom (sub : List Char) : Nat → List Char → Nat
  | _, [] => 0
  | 0, c :: cs =>
    if sub.isPrefixOf (c :: cs) then 1 + countFrom sub (sub.length - 1) cs
    else countFrom sub 0 cs
  | k + 1, _ :: cs => countFrom sub k cs

/-- Go's `strings.Count`. -/
def Count (s substr : String) : Nat :=
  if substr.data = [] then s.data.length + 1 else countFrom substr.data 0 s.data

/-- The loop of `strings.Split` for a non-empty `sep`: `cur` holds the characters of the
piece being read, last one first. -/
def splitFrom (sep : List Char) : Nat → List Char → List Char → List (List Char)
  | _, cur, [] => [cur.reverse]
  | 0, cur, c :: cs =>
    if sep.isPrefixOf (c :: cs) then cur.reverse :: splitFrom sep (sep.length - 1) [] cs
    else splitFrom sep 0 (c :: cur) cs
  | k + 1, cur, _ :: cs => splitFrom sep k cur cs

/-- Go's `strings.Split`. -/
def Split (s sep : String) : List String :=
  if sep.data = [] then s.data.map String.singleton
  else (splitFrom sep.data 0 [] s.data).map String.mk

/-- The loop of `strings.Replace` for a non-empty `old`: at most `n` occurrences, taken
from the left, are replaced. -/
def replaceFrom (old new : List Char) : Nat → Nat → List Char → List Char
  | _, _, [] => []
  | n, k + 1, _ :: cs => replaceFrom old new n k cs
  | 0, 0, c :: cs => c :: cs
  | n + 1, 0, c :: cs =>
    if old.isPrefixOf (c :: cs) then new ++ replaceFrom old new n (old.length - 1) cs
    else c :: replaceFrom old new (n + 1) 0 cs

/-- The loop of `strings.Replace` for the empty `old`, which matches at the start of the
string and after every character. -/
def replaceEmpty (new : List Char) : Nat → List Char → List Char
  | 0, l => l
  | _ + 1, [] => new
  | n + 1, c :: cs => new ++ c :: replaceEmpty new n cs

/-- Go's `strings.Replace`; a negative `n` puts no limit on the number of replacements. -/
def Replace (s old new : String) (n : Int) : String :=
  if old = new ∨ n = 0 then s
  else
    let budget := if n < 0 then s.data.length + 1 else n.toNat
    if old.data = [] then ⟨replaceEmpty new.data budget s.data⟩
    else ⟨replaceFrom old.data new.data budget 0 s.data⟩

/-! ## `occurrence.go` -/

/-- `Occurrence.Run`: count the matches and report a threshold violation once. -/
def Occurrence.Run (env : Env) (o : Occurrence) (txt : String) : Option (List Alert) :=
  match o.pattern with
  | none => none
  | some re =>
    let alerts : List Alert := []
    let locs := re.FindAllStringIndex txt
    let occurrences : Int := locs.length
    if (o.Max > 0 ∧ occurrences > o.Max) ∨ (o.Min > 0 ∧ occurrences < o.Min) then
      if occurrences = 0 then
        let a : Alert :=
          { Check := o.Definition.Name, Severity := o.Definition.Level, Span := [1, 1],
            Link := o.Definition.Link, Message := "", Description := "" }
        let a := { a with Message := o.Definition.Message }
        let a := { a with Description := o.Definition.Description }
        some (alerts ++ [a])
      else
        match locs[0]? with
        | none => none
        | some loc0 =>
          let a := env.makeAlert o.Definition loc0 txt
          let a := { a with Message := o.Definition.Message }
          let a := { a with Description := o.Definition.Description }
          some (alerts ++ [a])
    else
      some alerts

/-! ## `existence.go` -/

/-- `Existence.Run`: one alert for every match that is not excepted. -/
def Existence.Run (env : Env) (e : Existence) (txt : String) : Option (List Alert) :=
  match e.pattern with
  | none => none
  | some re =>
    some ((re.FindAllStringIndex txt).foldl
      (fun alerts loc =>
        let observed := TrimSpace (env.re2Loc txt loc)
        if !env.isMatch e.exceptRe observed then
          alerts ++ [env.makeAlert e.Definition loc txt]
        else alerts)
      [])

/-! ## `substitution.go` -/

/-- The type assertion `generic["path"].(string)`; `none` is its panic. -/
def pathString (generic : baseCheck) : Option String :=
  match generic.lookup "path" with
  | some (Value.str p) => some p
  | _ => none

/-- The message of the error that rejects a fragment of the swap table. -/
def captureGroupMsg : String := "capture group not supported; use '(?:' instead of '('"

/-- The condition under which the loop of `NewSubstitution` rejects the fragment
`regexstr`: `opens != strings.Count(regexstr, "(?") && opens != strings.Count(regexstr, "\\(")`
with `opens := strings.Count(regexstr, "(")`. -/
abbrev rejectsFragment (regexstr : String) : Prop :=
  Count regexstr "(" ≠ Count regexstr "(?" ∧ Count regexstr "(" ≠ Count regexstr "\\("

/-- The `range rule.Swap` loop of `NewSubstitution`: `tokens` and `replacements` are the
loop's two accumulators; the first fragment that fails the check ends the loop. -/
def swapLoop (path : String) :
    List (String × String) → String → List String → Except ConfigError (String × List String)
  | [], tokens, replacements => .ok (tokens, replacements)
  | (regexstr, replacement) :: rest, tokens, replacements =>
    if rejectsFragment regexstr then
      .error (ConfigError.E201FromTarget captureGroupMsg regexstr path)
    else
      swapLoop path rest (tokens ++ "(" ++ regexstr ++ ")|") (replacements ++ [replacement])

/-- `NewSubstitution`. The outer `none` is the panic of the type assertion on `path`.
`WeakDecode` fills the exported fields only, so the three unexported ones keep the zero
values of `rule := Substitution{}`. -/
def NewSubstitution (env : Env) (cfg : Config) (generic : baseCheck) :
    Option (Substitution × Option ConfigError) :=
  match pathString generic with
  | none => none
  | some path =>
    let decoded := env.decodeSubstitution generic
    let rule : Substitution :=
      { decoded.1 with exceptRe := none, pattern := none, repl := [] }
    match decoded.2 with
    | some err => some (rule, some (ConfigError.structureError err path))
    | none =>
      let tokens := ""
      match env.updateExceptions rule.Exceptions cfg.AcceptedTokens with
      | .error err => some (rule, some (ConfigError.E201FromPosition err path 1))
      | .ok re =>
        let rule := { rule with exceptRe := re }
        let regex := env.makeRegexp cfg.WordTemplate rule.Ignorecase (!rule.Nonword) "" true
        match swapLoop path rule.Swap tokens [] with
        | .error e => some (rule, some e)
        | .ok (tokens, replacements) =>
          let regex := env.Sprintf regex (TrimRight tokens "|")
          match env.CompileStd regex with
          | .error err => some (rule, some (ConfigError.E201FromPosition err path 1))
          | .ok re =>
            let rule := { rule with pattern := some re }
            let rule := { rule with repl := replacements }
            some (rule, none)

/-- `convertMessage`: for each of the two quoted slots in turn, when the string holds it
exactly twice, the first one loses its quotes. -/
def convertMessage (s : String) : String :=
  ["'%s'", "\"%s\""].foldl
    (fun s spec => if Count s spec = 2 then Replace s spec "%s" 1 else s) s

/-- The body of the inner loop of `Substitution.Run` at index `idx` of `submat`, whose
entry there is `mat`. The state is the receiver `s`, whose `Message` the body may
rewrite, and the alerts collected so far. -/
def Substitution.visit (env : Env) (txt : String) (submat : List Int) (idx : Nat) (mat : Int)
    (st : Substitution × List Alert) : Option (Substitution × List Alert) :=
  let s := st.1
  let alerts := st.2
  if mat ≠ -1 ∧ idx > 0 ∧ idx % 2 = 0 then
    match submat[idx + 1]? with
    | none => none
    | some hi =>
      let loc := [mat, hi]
      match s.repl[idx / 2 - 1]? with
      | none => none
      | some expected =>
        let observed := TrimSpace (env.re2Loc txt loc)
        let same := env.matchToken expected observed s.Ignorecase
        if !same && !env.isMatch s.exceptRe observed then
          let action := s.Definition.Action
          if action.Name = "replace" ∧ action.Params.length = 0 then
            let params := Split expected "|"
            let expected := env.ToSentence params "or"
            let s := { s with Definition :=
              { s.Definition with Message := convertMessage s.Definition.Message } }
            let a := env.makeAlert s.Definition loc txt
            let md := env.formatMessages s.Definition.Message s.Definition.Description
              [expected, observed]
            some (s, alerts ++ [{ a with Message := md.1, Description := md.2 }])
          else
            let a := env.makeAlert s.Definition loc txt
            let md := env.formatMessages s.Definition.Message s.Definition.Description
              [expected, observed]
            some (s, alerts ++ [{ a with Message := md.1, Description := md.2 }])
        else some (s, alerts)
  else some (s, alerts)

/-- The inner loop `for idx, mat := range submat`, from index `idx` on. -/
def Substitution.eachIndex (env : Env) (txt : String) (submat : List Int) :
    Nat → List Int → Substitution × List Alert → Option (Substitution × List Alert)
  | _, [], st => some st
  | idx, mat :: rest, st =>
    match Substitution.visit env txt submat idx mat st with
    | none => none
    | some st1 => Substitution.eachIndex env txt submat (idx + 1) rest st1

/-- The outer loop over the matches. -/
def Substitution.eachMatch (env : Env) (txt : String) :
    List (List Int) → Substitution × List Alert → Option (Substitution × List Alert)
  | [], st => some st
  | submat :: rest, st =>
    match Substitution.eachIndex env txt submat 0 submat st with
    | none => none
    | some st1 => Substitution.eachMatch env txt rest st1

/-- `Substitution.Run`. -/
def Substitution.Run (env : Env) (s : Substitution) (txt : String) : Option (List Alert) :=
  match s.pattern with
  | none => none
  | some re =>
    let alerts : List Alert := []
    if !re.MatchStringStd txt then some alerts
    else
      match Substitution.eachMatch env txt (re.FindAllStringSubmatchIndex txt) (s, alerts) with
      | none => none
      | some st => some st.2

/-- One iteration of the loop of `convertMessage`, for the quoted slot `form`. -/
def collapseStep (form cur : String) : String :=
  if Count cur form = 2 then Replace cur form "%s" 1 else cur

/-! ## The constructors and `Pattern` of `occurrence.go` and `existence.go` -/

/-- Go's `strings.Join`. -/
def Join : List String → String → String
  | [], _ => ""
  | [a], _ => a
  | a :: b :: rest, sep => a ++ sep ++ Join (b :: rest) sep

/-- `NewOccurrence`. The outer `none` is the panic of the type assertion on `path`.
`ignoreCase` is the package constant of that name, which is declared in another file.
`WeakDecode` fills the exported fields only, so `pattern` keeps the zero value of
`rule := Occurrence{}`. -/
def NewOccurrence (env : Env) (ignoreCase : String) (_cfg : Config) (generic : baseCheck) :
    Option (Occurrence × Option ConfigError) :=
  match pathString generic with
  | none => none
  | some path =>
    let decoded := env.decodeOccurrence generic
    let rule : Occurrence := { decoded.1 with pattern := none }
    match decoded.2 with
    | some err => some (rule, some (ConfigError.structureError err path))
    | none =>
      let regex := ""
      let regex := if rule.Ignorecase then regex ++ ignoreCase else regex
      let regex := regex ++ ("(?:" ++ rule.Token ++ ")")
      match env.CompileStd regex with
      | .error err => some (rule, some (ConfigError.E201FromPosition err path 1))
      | .ok re =>
        let rule := { rule with pattern := some re }
        some (rule, none)

/-- `Occurrence.Pattern`: the `String()` of the compiled pattern; `none` is the panic of a
nil pattern. -/
def Occurrence.Pattern (o : Occurrence) : Option String :=
  match o.pattern with
  | none => none
  | some re => some re.source

/-- The two results of the checked type assertion `p, ok := generic["path"].(string)`. -/
def pathStringOk (generic : baseCheck) : String × Bool :=
  match generic.lookup "path" with
  | some (Value.str p) => (p, true)
  | _ => ("", false)

/-- The closure that `NewExistence` passes to `makeRegexp` as its `word` argument. -/
def Existence.word (rule : Existence) : Bool :=
  !rule.Nonword && decide (rule.Tokens.length > 0)

/-- `NewExistence`. It has no unchecked type assertion, so it cannot panic.
`WeakDecode` fills the exported fields only, so the two unexported ones keep the zero
values of `rule := Existence{}`. -/
def NewExistence (env : Env) (cfg : Config) (generic : baseCheck) :
    Existence × Option ConfigError :=
  let path := ""
  let pok := pathStringOk generic
  let path := if !pok.2 then pok.1 else path
  let decoded := env.decodeExistence generic
  let rule : Existence := { decoded.1 with exceptRe := none, pattern := none }
  match decoded.2 with
  | some err => (rule, some (ConfigError.structureError err path))
  | none =>
    match env.updateExceptions rule.Exceptions cfg.AcceptedTokens with
    | .error err => (rule, some (ConfigError.E201FromPosition err path 1))
    | .ok re =>
      let rule := { rule with exceptRe := re }
      let regex := env.makeRegexp cfg.WordTemplate rule.IgnoreCase rule.word
        (Join rule.Raw "") rule.Append
      let regex := env.Sprintf regex (Join rule.Tokens "|")
      match env.CompileStd regex with
      | .error err => (rule, some (ConfigError.E201FromPosition err path 1))
      | .ok re =>
        let rule := { rule with pattern := some re }
        (rule, none)

/-- `Existence.Pattern`. -/
def Existence.Pattern (e : Existence) : Option String :=
  match e.pattern with
  | none => none
  | some re => some re.source

/-- `Substitution.Pattern`. -/
def Substitution.Pattern (s : Substitution) : Option String :=
  match s.pattern with
  | none => none
  | some re => some re.source

/-! ## The receiver of `Run` -/

/-- The body of `Substitution.Run` with the value of its receiver `s` when it returns,
next to the alerts: the loops may have rewritten `s.Message`. -/
def Substitution.RunReceiver (env : Env) (s : Substitution) (txt : String) :
    Option (Substitution × List Alert) :=
  match s.pattern with
  | none => none
  | some re =>
    let alerts : List Alert := []
    if !re.MatchStringStd txt then some (s, alerts)
    else Substitution.eachMatch env txt (re.FindAllStringSubmatchIndex txt) (s, alerts)

/-- The body of `Existence.Run` with the value of its receiver when it returns: no
statement of the body assigns to the receiver. -/
def Existence.RunReceiver (env : Env) (e : Existence) (txt : String) :
    Option (Existence × List Alert) :=
  match e.Run env txt with
  | none => none
  | some alerts => some (e, alerts)

/-- The body of `Occurrence.Run` with the value of its receiver when it returns: no
statement of the body assigns to the receiver. -/
def Occurrence.RunReceiver (env : Env) (o : Occurrence) (txt : String) :
    Option (Occurrence × List Alert) :=
  match o.Run env txt with
  | none => none
  | some alerts => some (o, alerts)

/-- What the caller finds in the definition `d` of its rule after a call of `Run` whose
body ended with the definition `final` in its copy: the strings of `d` are values, out of
the reach of the body; `Action.Params` is a slice whose storage the copy shares. -/
def Definition.afterCall (d final : Definition) : Definition :=
  { d with Action := { d.Action with Params := final.Action.Params } }

/-- What the caller's rule `r` is after a call `r.Run(blk, f)` whose body ended with the
receiver `final`. `Run` has a value receiver, so the body works on a copy of `r`: the
fields of `r` that hold a value (strings, booleans) are out of its reach, and the fields
that hold a reference (the map, the slices, the two pattern pointers) lead to storage that
the copy shares, so there the caller finds what the body left. -/
def Substitution.afterCall (r final : Substitution) : Substitution :=
  { r with
    Definition := r.Definition.afterCall final.Definition,
    Swap := final.Swap, Exceptions := final.Exceptions, exceptRe := final.exceptRe,
    pattern := final.pattern, repl := final.repl }

/-- The caller's existence rule after a call of `Run`, as for `Substitution.afterCall`. -/
def Existence.afterCall (r final : Existence) : Existence :=
  { r with
    Definition := r.Definition.afterCall final.Definition,
    Raw := final.Raw, Tokens := final.Tokens, Exceptions := final.Exceptions,
    exceptRe := final.exceptRe, pattern := final.pattern }

/-- The caller's occurrence rule after a call of `Run`, as for `Substitution.afterCall`. -/
def Occurrence.afterCall (r final : Occurrence) : Occurrence :=
  { r with
    Definition := r.Definition.afterCall final.Definition, pattern := final.pattern }

/-- A call `r.Run(blk, f)` seen from the caller: the caller's rule after the call and the
alerts; a panic ends the program and leaves nothing to see. -/
def Substitution.call (env : Env) (r : Substitution) (txt : String) :
    Substitution × Option (List Alert) :=
  match Substitution.RunReceiver env r txt with
  | none => (r, none)
  | some st => (r.afterCall st.1, some st.2)

/-- A call of `Existence.Run` seen from the caller. -/
def Existence.call (env : Env) (r : Existence) (txt : String) :
    Existence × Option (List Alert) :=
  match Existence.RunReceiver env r txt with
  | none => (r, none)
  | some st => (r.afterCall st.1, some st.2)

/-- A call of `Occurrence.Run` seen from the caller. -/
def Occurrence.call (env : Env) (r : Occurrence) (txt : String) :
    Occurrence × Option (List Alert) :=
  match Occurrence.RunReceiver env r txt with
  | none => (r, none)
  | some st => (r.afterCall st.1, some st.2)

/-- A call had `Run` a pointer receiver: the caller's rule is the one the body leaves
behind, message template included. -/
def callByPointer {ρ : Type} (body : ρ → String → Option (ρ × List Alert)) (r : ρ)
    (txt : String) : ρ × Option (List Alert) :=
  match body r txt with
  | none => (r, none)
  | some st => (st.1, some st.2)

/-! ## The properties in the words of the specification -/

/-- The alternation `(f1)|(f2)|...|(fn)` of the fragments `f1, ..., fn`: every fragment in
one added group, a single `|` between two neighbours and none at the end. -/
def alternationBody : List String → String
  | [] => ""
  | [f] => "(" ++ f ++ ")"
  | f :: g :: rest => "(" ++ f ++ ")|" ++ alternationBody (g :: rest)

/-- A fragment declares a capturing group of its own: it has a `(` that is neither
immediately followed by `?` nor immediately preceded by a backslash. -/
def declaresCapturingGroup (regexstr : String) : Prop :=
  ∃ pre post, regexstr.data = pre ++ '(' :: post ∧
    pre.getLast? ≠ some '\\' ∧ post.head? ≠ some '?'

/-- An executable search for a `(` that is neither followed by `?` nor preceded by a
backslash; `prev` is the character before the list. -/
def scanCapture : Option Char → List Char → Bool
  | _, [] => false
  | prev, c :: cs =>
    (c == '(' && prev != some '\\' && cs.head? != some '?') || scanCapture (some c) cs

/-- The receiver of `Substitution.Run` after its message template was rewritten to `msg`:
the only field of the rule that a run changes. -/
def Substitution.withMessage (s : Substitution) (msg : String) : Substitution :=
  { s with Definition := { s.Definition with Message := msg } }

/-- The spans of the capture groups of one match: entries `2k` and `2k+1` of the submatch
array are the start and the end of group `k`. -/
def groupSpans : List Int → List (Int × Int)
  | lo :: hi :: rest => (lo, hi) :: groupSpans rest
  | _ => []

/-- A capture group `group` of a match, its span `[lo, hi)` and its replacement
`repl[group-1]`. -/
structure Hit where
  group : Nat
  lo : Int
  hi : Int
  replacement : String
  deriving DecidableEq, Repr

/-- The trimmed text of the block at the span of a hit. -/
def Hit.observed (env : Env) (txt : String) (h : Hit) : String :=
  TrimSpace (env.re2Loc txt [h.lo, h.hi])

/-- The capture groups `k ≥ 1` that participated in a match (start offset other than
`-1`), in the order of their index; `spans` are the spans of the groups from index `k`
on. -/
def Substitution.participatingFrom (s : Substitution) (k : Nat) (spans : List (Int × Int)) :
    List Hit :=
  (spans.enumFrom k).filterMap (fun p =>
    if 1 ≤ p.1 ∧ p.2.1 ≠ -1 then
      (s.repl[p.1 - 1]?).map (fun r => { group := p.1, lo := p.2.1, hi := p.2.2,
                                         replacement := r })
    else none)

/-- A participating group is reported when its observed text neither equals its
replacement according to `matchToken` nor is excepted. -/
def Substitution.reports (env : Env) (s : Substitution) (txt : String) (h : Hit) : Bool :=
  !env.matchToken h.replacement (h.observed env txt) s.Ignorecase &&
    !env.isMatch s.exceptRe (h.observed env txt)

/-- The reported (match, group) pairs of a run, match after match and, inside a match, in
the order of the group index. -/
def Substitution.hits (env : Env) (s : Substitution) (txt : String)
    (submatches : List (List Int)) : List Hit :=
  (submatches.map (fun submat =>
    (s.participatingFrom 0 (groupSpans submat)).filter (s.reports env txt))).flatten

/-- The `expected` string of an alert for a group whose replacement is `replacement`. -/
def Substitution.expectedFor (env : Env) (s : Substitution) (replacement : String) : String :=
  if s.Definition.Action.Name = "replace" ∧ s.Definition.Action.Params.length = 0 then
    env.ToSentence (Split replacement "|") "or"
  else replacement

/-- The message template with which the next alert is formatted, given the current one. -/
def Substitution.nextMessage (s : Substitution) (msg : String) : String :=
  if s.Definition.Action.Name = "replace" ∧ s.Definition.Action.Params.length = 0 then
    convertMessage msg
  else msg

/-- The alert of one hit, formatted from the message template `msg`. -/
def Substitution.alertFor (env : Env) (s : Substitution) (txt : String) (msg : String)
    (h : Hit) : Alert :=
  let a := env.makeAlert (s.withMessage msg).Definition [h.lo, h.hi] txt
  let md := env.formatMessages msg s.Definition.Description
    [s.expectedFor env h.replacement, h.observed env txt]
  { a with Message := md.1, Description := md.2 }

/-- One alert per hit, in order; `msg` is the message template before the first one. -/
def Substitution.emit (env : Env) (s : Substitution) (txt : String) :
    String → List Hit → List Alert
  | _, [] => []
  | msg, h :: rest =>
    s.alertFor env txt (s.nextMessage msg) h :: Substitution.emit env s txt (s.nextMessage msg) rest

/-- The step of `convertMessage` for one quoted form, in the words of the specification:
when `cur` holds the form exactly twice, `out` is `cur` without the two quotes of the
first occurrence, two characters shorter, and the rest, which holds the second
occurrence, is kept; otherwise `out` is `cur`. -/
def collapsesFirst (form cur out : String) : Prop :=
  (Count cur form = 2 →
    ∃ pre post, cur.data = pre ++ form.data ++ post ∧
      (∀ i, i < pre.length → form.data.isPrefixOf (cur.data.drop i) = false) ∧
      out.data = pre ++ "%s".data ++ post ∧
      out.data.length + 2 = cur.data.length ∧
      Count ⟨post⟩ form = 1) ∧
  (Count cur form ≠ 2 → out = cur)

/-! ## Sample values

Concrete collaborators and rules at which the theorems below are instantiated. -/

/-- A rule definition with a parameterless `replace` action. -/
def sampleDefinition : Definition :=
  { Action := { Name := "replace", Params := [] }, Description := "Preferred terms",
    Level := "warning", Link := "https://example.com/terms",
    Message := "Use '%s' instead of '%s'", Name := "Docs.Terms" }

/-- A pattern that reports the given submatch arrays on every text. -/
def fixedRegexp (src : String) (subs : List (List Int)) : Regexp :=
  { source := src,
    MatchStringStd := fun _ => !subs.isEmpty,
    FindAllStringIndex := fun _ => subs.map (fun m => m.take 2),
    FindAllStringSubmatchIndex := fun _ => subs }

/-- An alert that copies the rule's metadata and the span. -/
def sampleMakeAlert (chk : Definition) (loc : List Int) (_txt : String) : Alert :=
  { Check := chk.Name, Severity := chk.Level, Span := loc, Link := chk.Link,
    Message := chk.Message, Description := chk.Description }

/-- The characters of `s` between the two offsets of `loc`. -/
def sampleRe2Loc (s : String) (loc : List Int) : String :=
  match loc with
  | [lo, hi] => ⟨(s.data.drop lo.toNat).take (hi.toNat - lo.toNat)⟩
  | _ => ""

/-- An empty rule of each kind, the value a failed decode leaves behind. -/
def emptyDefinition : Definition :=
  { Action := { Name := "", Params := [] }, Description := "", Level := "", Link := "",
    Message := "", Name := "" }

/-- A sample environment: literal comparison for `matchToken`, a decode that reads the
`swap` entry, and a compiler that accepts every source and reports no match. -/
def sampleEnv : Env :=
  { makeAlert := sampleMakeAlert,
    re2Loc := sampleRe2Loc,
    isMatch := fun r s => match r with
      | none => false
      | some re => re.MatchStringStd s,
    matchToken := fun expected observed _ => expected == observed,
    formatMessages := fun msg desc subs => (msg ++ " <- " ++ " / ".intercalate subs, desc),
    ToSentence := fun words conj => (" " ++ conj ++ " ").intercalate words,
    makeRegexp := fun template noCase word callback _ =>
      (if noCase then "(?i)" else "") ++
        (if word then template else "(?m)(?:%s)") ++ callback,
    updateExceptions := fun _ _ => .ok none,
    CompileStd := fun src => .ok (fixedRegexp src []),
    Sprintf := fun format arg => Replace format "%s" arg 1,
    decodeOccurrence := fun _ =>
      ({ Definition := emptyDefinition, Ignorecase := false, Max := 0, Min := 0, Token := "",
         pattern := none }, none),
    decodeExistence := fun _ =>
      ({ Definition := emptyDefinition, Append := false, IgnoreCase := false,
         Nonword := false, Raw := [], Tokens := [], Exceptions := [], exceptRe := none,
         pattern := none }, none),
    decodeSubstitution := fun generic =>
      ({ Definition := sampleDefinition, Ignorecase := false, Nonword := false,
         Swap := match generic.lookup "swap" with
           | some (Value.pairs l) => l
           | _ => [],
         POS := "", Exceptions := [], exceptRe := none, pattern := none, repl := [] }, none) }

/-- An occurrence rule with the given thresholds whose pattern reports the given matches. -/
def sampleOccurrence (max min : Int) (locs : List (List Int)) : Occurrence :=
  { Definition := sampleDefinition, Ignorecase := false, Max := max, Min := min,
    Token := "foo", pattern := some (fixedRegexp "(?:foo)" locs) }

/-- An existence rule whose pattern reports the given matches and whose exception set
is the given pattern. -/
def sampleExistence (locs : List (List Int)) (except : Option Regexp) : Existence :=
  { Definition := sampleDefinition, Append := false, IgnoreCase := false, Nonword := false,
    Raw := [], Tokens := ["foo", "bar"], Exceptions := [], exceptRe := except,
    pattern := some (fixedRegexp "(?m)\\b(?:foo|bar)\\b" locs) }

/-- The exception set of the single exception `foobar`. -/
def foobarException : Option Regexp :=
  some { fixedRegexp "(?i)foobar" [] with MatchStringStd := fun w => w == "foobar" }

/-- The process-wide configuration with the default word template. -/
def sampleConfig : Config :=
  { WordTemplate := "(?m)\\b(?:%s)\\b", AcceptedTokens := [] }

/-- The generic mapping of a substitution rule at `path` with the given swap table. -/
def sampleGeneric (path : String) (swap : List (String × String)) : baseCheck :=
  [("extends", Value.str "substitution"), ("path", Value.str path), ("swap", Value.pairs swap)]

/-- The substitution rule of the table `(?:NodeJS) -> Node.js`, `(?:javascript) ->
JavaScript`, whose pattern reports the given submatch arrays. -/
def sampleSubstitution (subs : List (List Int)) : Substitution :=
  { Definition := sampleDefinition, Ignorecase := true, Nonword := false,
    Swap := [("(?:NodeJS)", "Node.js"), ("(?:javascript)", "JavaScript")], POS := "",
    Exceptions := [], exceptRe := none,
    pattern := some (fixedRegexp "(?i)(?m)\\b(?:((?:NodeJS))|((?:javascript)))\\b" subs),
    repl := ["Node.js", "JavaScript"] }

/-- The submatch arrays of the two matches in `I use NodeJS and javascript daily.`: group 1
at `[6, 12)` in the first match, group 2 at `[17, 27)` in the second. -/
def sampleSubmatches : List (List Int) :=
  [[6, 12, 6, 12, -1, -1], [17, 27, -1, -1, 17, 27]]

/-- The pattern `(?m)\b(?:(\\(a)))\b` that `NewSubstitution` builds from the single
fragment `\\(a)`, an escaped backslash followed by a group: in the text `x\a` its only
match is `\a` at `[1, 3)`, where group 1 is `\a` and group 2, the group of the fragment,
is `a` at `[2, 3)`. -/
def escapedBackslashRegexp (src : String) : Regexp :=
  { source := src,
    MatchStringStd := fun txt => txt == "x\\a",
    FindAllStringIndex := fun txt => if txt == "x\\a" then [[1, 3]] else [],
    FindAllStringSubmatchIndex := fun txt =>
      if txt == "x\\a" then [[1, 3, 1, 3, 2, 3]] else [] }

/-- The sample environment with a compiler that answers with `escapedBackslashRegexp`. -/
def escapedBackslashEnv : Env :=
  { sampleEnv with CompileStd := fun src => .ok (escapedBackslashRegexp src) }

/-- The sample environment with a decode of the `nonword`, `tokens`, `raw`, `ignorecase`
and `append` entries of an existence rule and of the `token`, `ignorecase`, `max` and
`min` entries of an occurrence rule. -/
def decodingEnv : Env :=
  { sampleEnv with
    decodeExistence := fun generic =>
      ({ Definition := sampleDefinition,
         Append := generic.lookup "append" == some (Value.bool true),
         IgnoreCase := generic.lookup "ignorecase" == some (Value.bool true),
         Nonword := generic.lookup "nonword" == some (Value.bool true),
         Raw := match generic.lookup "raw" with
           | some (Value.strs l) => l
           | _ => [],
         Tokens := match generic.lookup "tokens" with
           | some (Value.strs l) => l
           | _ => [],
         Exceptions := [], exceptRe := none, pattern := none }, none),
    decodeOccurrence := fun generic =>
      ({ Definition := sampleDefinition,
         Ignorecase := generic.lookup "ignorecase" == some (Value.bool true),
         Max := match generic.lookup "max" with
           | some (Value.int i) => i
           | _ => 0,
         Min := match generic.lookup "min" with
           | some (Value.int i) => i
           | _ => 0,
         Token := match generic.lookup "token" with
           | some (Value.str t) => t
           | _ => "",
         pattern := none }, none) }

/-- The decoding environment with a compiler that rejects every source. -/
def rejectingEnv : Env :=
  { decodingEnv with CompileStd := fun _ => .error "error parsing regexp" }

/-- The sample substitution rule with the message template `''%s'' '%s'`. -/
def nestedQuotesSubstitution : Substitution :=
  { sampleSubstitution sampleSubmatches with
    Definition := { sampleDefinition with Message := "''%s'' '%s'" } }

/-! ## Theorems -/

/-! ### `Occurrence.Run` -/

/-- C1: with `n` matches of the pattern in the text, `Occurrence.Run` returns exactly one
alert when `Max > 0` and `n > Max`, or `Min > 0` and `n < Min`, and the empty list
otherwise; a rule with `Max = 0` and `Min = 0` never alerts. -/
theorem occurrence_run_one_alert_iff_violation (env : Env) (o : Occurrence) (re : Regexp)
    (txt : String) (n : Nat) (hp : o.pattern = some re)
    (hn : (re.FindAllStringIndex txt).length = n) :
    (((o.Max > 0 ∧ (n : Int) > o.Max) ∨ (o.Min > 0 ∧ (n : Int) < o.Min)) →
        ∃ a, o.Run env txt = some [a]) ∧
    (¬ ((o.Max > 0 ∧ (n : Int) > o.Max) ∨ (o.Min > 0 ∧ (n : Int) < o.Min)) →
        o.Run env txt = some []) ∧
    (o.Max = 0 → o.Min = 0 → o.Run env txt = some []) := by
  subst hn
  refine ⟨fun hv => ?_, fun hv => ?_, fun hmax hmin => ?_⟩
  · cases hl : re.FindAllStringIndex txt with
    | nil =>
      rw [hl] at hv
      simp only [Occurrence.Run, hp, hl]
      rw [if_pos hv, if_pos (by simp)]
      exact ⟨_, rfl⟩
    | cons loc0 rest =>
      rw [hl] at hv
      simp only [Occurrence.Run, hp, hl]
      rw [if_pos hv, if_neg (by simp; omega)]
      simp only [List.getElem?_cons_zero]
      exact ⟨_, rfl⟩
  · simp only [Occurrence.Run, hp]
    rw [if_neg hv]
  · simp only [Occurrence.Run, hp]
    rw [if_neg (by simp [hmax, hmin])]

/-- Witness of C1: thresholds `Max = 2`, `Min = 0` and three matches. -/
theorem occurrence_run_one_alert_iff_violation_witness :
    (sampleOccurrence 2 0 [[0, 3], [4, 7], [8, 11]]).pattern
        = some (fixedRegexp "(?:foo)" [[0, 3], [4, 7], [8, 11]]) ∧
    ((fixedRegexp "(?:foo)" [[0, 3], [4, 7], [8, 11]]).FindAllStringIndex "foo foo foo").length
        = 3 ∧
    ((((sampleOccurrence 2 0 [[0, 3], [4, 7], [8, 11]]).Max > 0 ∧
          ((3 : Nat) : Int) > (sampleOccurrence 2 0 [[0, 3], [4, 7], [8, 11]]).Max) ∨
        ((sampleOccurrence 2 0 [[0, 3], [4, 7], [8, 11]]).Min > 0 ∧
          ((3 : Nat) : Int) < (sampleOccurrence 2 0 [[0, 3], [4, 7], [8, 11]]).Min)) →
        ∃ a, (sampleOccurrence 2 0 [[0, 3], [4, 7], [8, 11]]).Run sampleEnv "foo foo foo"
          = some [a]) :=
  ⟨rfl, rfl,
    (occurrence_run_one_alert_iff_violation sampleEnv
      (sampleOccurrence 2 0 [[0, 3], [4, 7], [8, 11]])
      (fixedRegexp "(?:foo)" [[0, 3], [4, 7], [8, 11]]) "foo foo foo" 3 rfl rfl).1⟩

/-- C2: when `Min > 0` and the pattern has no match in the text, `Occurrence.Run` returns
exactly one alert, whose span is `[1, 1]`, whose check, severity and link are the rule's
name, level and link, and whose message and description are the rule's own. -/
theorem occurrence_run_zero_matches (env : Env) (o : Occurrence) (re : Regexp)
    (txt : String) (hp : o.pattern = some re) (hmin : o.Min > 0)
    (hzero : re.FindAllStringIndex txt = []) :
    o.Run env txt = some
      [{ Check := o.Definition.Name, Severity := o.Definition.Level, Span := [1, 1],
         Link := o.Definition.Link, Message := o.Definition.Message,
         Description := o.Definition.Description }] := by
  simp only [Occurrence.Run, hp, hzero]
  rw [if_pos (Or.inr ⟨hmin, by simpa using hmin⟩)]
  simp

/-- Witness of C2: thresholds `Min = 1`, `Max = 0` and no match. -/
theorem occurrence_run_zero_matches_witness :
    (sampleOccurrence 0 1 []).Min > 0 ∧
    (sampleOccurrence 0 1 []).Run sampleEnv "nothing here" = some
      [{ Check := "Docs.Terms", Severity := "warning", Span := [1, 1],
         Link := "https://example.com/terms", Message := "Use '%s' instead of '%s'",
         Description := "Preferred terms" }] :=
  ⟨by decide,
    occurrence_run_zero_matches sampleEnv (sampleOccurrence 0 1 [])
      (fixedRegexp "(?:foo)" []) "nothing here" rfl (by decide) rfl⟩

/-- C3: when the text has at least one match and the count violates a threshold, the
single alert of `Occurrence.Run` is `makeAlert` of the rule's definition and the first
match `locs[0]`, with its message and description overwritten by the rule's own. -/
theorem occurrence_run_first_match (env : Env) (o : Occurrence) (re : Regexp)
    (txt : String) (loc0 : List Int) (rest : List (List Int)) (hp : o.pattern = some re)
    (hlocs : re.FindAllStringIndex txt = loc0 :: rest)
    (hv : (o.Max > 0 ∧ ((loc0 :: rest).length : Int) > o.Max) ∨
          (o.Min > 0 ∧ ((loc0 :: rest).length : Int) < o.Min)) :
    o.Run env txt = some
      [{ env.makeAlert o.Definition loc0 txt with
          Message := o.Definition.Message, Description := o.Definition.Description }] := by
  simp only [Occurrence.Run, hp, hlocs]
  rw [if_pos hv, if_neg (by simp; omega)]
  simp

/-- Witness of C3: `Max = 2` and three matches, the alert sits on the first one. -/
theorem occurrence_run_first_match_witness :
    (((sampleOccurrence 2 0 [[4, 7], [0, 3], [8, 11]]).Max > 0 ∧
        (([[4, 7], [0, 3], [8, 11]] : List (List Int)).length : Int)
          > (sampleOccurrence 2 0 [[4, 7], [0, 3], [8, 11]]).Max) ∨
      ((sampleOccurrence 2 0 [[4, 7], [0, 3], [8, 11]]).Min > 0 ∧
        (([[4, 7], [0, 3], [8, 11]] : List (List Int)).length : Int)
          < (sampleOccurrence 2 0 [[4, 7], [0, 3], [8, 11]]).Min)) ∧
    (sampleOccurrence 2 0 [[4, 7], [0, 3], [8, 11]]).Run sampleEnv "foo foo foo" = some
      [{ sampleEnv.makeAlert (sampleOccurrence 2 0 [[4, 7], [0, 3], [8, 11]]).Definition
            [4, 7] "foo foo foo" with
          Message := (sampleOccurrence 2 0 [[4, 7], [0, 3], [8, 11]]).Definition.Message,
          Description :=
            (sampleOccurrence 2 0 [[4, 7], [0, 3], [8, 11]]).Definition.Description }] :=
  ⟨Or.inl ⟨by decide, by decide⟩,
    occurrence_run_first_match sampleEnv (sampleOccurrence 2 0 [[4, 7], [0, 3], [8, 11]])
      (fixedRegexp "(?:foo)" [[4, 7], [0, 3], [8, 11]]) "foo foo foo" [4, 7]
      [[0, 3], [8, 11]] rfl rfl (Or.inl ⟨by decide, by decide⟩)⟩

/-! ### `Existence.Run` -/

/-- The loop of `Existence.Run` appends, to the alerts it starts from, the alerts of the
matches that are not excepted, in the order of the matches. -/
theorem existence_loop_eq (env : Env) (e : Existence) (txt : String)
    (locs : List (List Int)) (acc : List Alert) :
    locs.foldl
      (fun alerts loc =>
        let observed := TrimSpace (env.re2Loc txt loc)
        if !env.isMatch e.exceptRe observed then
          alerts ++ [env.makeAlert e.Definition loc txt]
        else alerts)
      acc
    = acc ++ (locs.filter
        (fun loc => !env.isMatch e.exceptRe (TrimSpace (env.re2Loc txt loc)))).map
        (fun loc => env.makeAlert e.Definition loc txt) := by
  induction locs generalizing acc with
  | nil => simp
  | cons loc rest ih =>
    simp only [List.foldl_cons, List.filter_cons]
    rw [ih]
    cases h : env.isMatch e.exceptRe (TrimSpace (env.re2Loc txt loc)) <;> simp

/-- C4: `Existence.Run` returns, in the order of the matches, the alert
`makeAlert(e.Definition, loc, txt)` of every match `loc` whose trimmed text is not
excepted, and nothing else; so the number of alerts is the number of matches minus the
number of matches whose trimmed text is excepted. -/
theorem existence_run_alerts (env : Env) (e : Existence) (re : Regexp) (txt : String)
    (hp : e.pattern = some re) :
    ∃ alerts, e.Run env txt = some alerts ∧
      alerts = ((re.FindAllStringIndex txt).filter
          (fun loc => !env.isMatch e.exceptRe (TrimSpace (env.re2Loc txt loc)))).map
          (fun loc => env.makeAlert e.Definition loc txt) ∧
      alerts.length = (re.FindAllStringIndex txt).length -
        (re.FindAllStringIndex txt).countP
          (fun loc => env.isMatch e.exceptRe (TrimSpace (env.re2Loc txt loc))) := by
  refine ⟨_, ?_, rfl, ?_⟩
  · simp only [Existence.Run, hp]
    rw [existence_loop_eq]
    simp
  · rw [List.length_map, ← List.countP_eq_length_filter]
    have h := List.length_eq_countP_add_countP
      (fun loc => env.isMatch e.exceptRe (TrimSpace (env.re2Loc txt loc)))
      (re.FindAllStringIndex txt)
    have h2 : List.countP
        (fun loc => !env.isMatch e.exceptRe (TrimSpace (env.re2Loc txt loc)))
        (re.FindAllStringIndex txt)
        = List.countP
        (fun a => decide ¬(env.isMatch e.exceptRe (TrimSpace (env.re2Loc txt a)) = true))
        (re.FindAllStringIndex txt) := by
      congr 1
      funext loc
      cases env.isMatch e.exceptRe (TrimSpace (env.re2Loc txt loc)) <;> simp
    omega

/-- Witness of C4: three matches, the last of which is excepted. -/
theorem existence_run_alerts_witness :
    ∃ alerts,
      (sampleExistence [[0, 3], [4, 7], [8, 14]] foobarException).Run sampleEnv
          "foo bar foobar" = some alerts ∧
      alerts = [sampleMakeAlert sampleDefinition [0, 3] "foo bar foobar",
                sampleMakeAlert sampleDefinition [4, 7] "foo bar foobar"] ∧
      alerts.length = 3 - 1 :=
  existence_run_alerts sampleEnv (sampleExistence [[0, 3], [4, 7], [8, 14]] foobarException)
    (fixedRegexp "(?m)\\b(?:foo|bar)\\b" [[0, 3], [4, 7], [8, 14]]) "foo bar foobar" rfl

/-! ### `NewSubstitution` -/


theorem countFrom_succ (sub : List Char) (k : Nat) (c : Char) (cs : List Char) :
    countFrom sub (k + 1) (c :: cs) = countFrom sub k cs := rfl

theorem countFrom_zero_hit (sub : List Char) (c : Char) (cs : List Char)
    (h : sub.isPrefixOf (c :: cs) = true) :
    countFrom sub 0 (c :: cs) = 1 + countFrom sub (sub.length - 1) cs := by
  simp [countFrom, h]

theorem countFrom_zero_miss (sub : List Char) (c : Char) (cs : List Char)
    (h : sub.isPrefixOf (c :: cs) = false) :
    countFrom sub 0 (c :: cs) = countFrom sub 0 cs := by
  simp [countFrom, h]

theorem head_eq_of_isPrefixOf (a : Char) (bs : List Char) (c : Char) (cs : List Char)
    (h : (a :: bs).isPrefixOf (c :: cs) = true) : a = c ∧ bs.isPrefixOf cs = true := by
  simpa [List.isPrefixOf] using h

theorem countFrom_le_count_head (a : Char) (bs : List Char) (l : List Char) :
    ∀ k, countFrom (a :: bs) k l ≤ l.count a := by
  induction l with
  | nil => intro k; simp [countFrom]
  | cons c cs ih =>
    intro k
    have h2 := List.count_le_count_cons a c cs
    cases k with
    | zero =>
      cases h : (a :: bs).isPrefixOf (c :: cs) with
      | true =>
        rw [countFrom_zero_hit _ _ _ h]
        have hc := (head_eq_of_isPrefixOf a bs c cs h).1
        subst hc
        have := ih ((a :: bs).length - 1)
        rw [List.count_cons_self]
        omega
      | false =>
        rw [countFrom_zero_miss _ _ _ h]
        have := ih 0
        omega
    | succ k =>
      rw [countFrom_succ]
      have := ih k
      omega

theorem countFrom_lt_count_head (a b : Char) (post : List Char) (hpost : post.head? ≠ some b)
    (pre : List Char) :
    ∀ k, countFrom [a, b] k (pre ++ a :: post) < (pre ++ a :: post).count a := by
  induction pre with
  | nil =>
    intro k
    have hnp : [a, b].isPrefixOf (a :: post) = false := by
      cases post with
      | nil => simp [List.isPrefixOf]
      | cons d ds =>
        simp [List.isPrefixOf]
        intro h
        apply hpost
        simp [h]
    rw [List.nil_append, List.count_cons_self]
    cases k with
    | zero =>
      rw [countFrom_zero_miss _ _ _ hnp]
      have := countFrom_le_count_head a [b] post 0
      omega
    | succ k =>
      rw [countFrom_succ]
      have := countFrom_le_count_head a [b] post k
      omega
  | cons c pre ih =>
    intro k
    rw [List.cons_append]
    have h2 := List.count_le_count_cons a c (pre ++ a :: post)
    cases k with
    | zero =>
      cases h : [a, b].isPrefixOf (c :: (pre ++ a :: post)) with
      | true =>
        rw [countFrom_zero_hit _ _ _ h]
        have hc := (head_eq_of_isPrefixOf a [b] c _ h).1
        subst hc
        have := ih ([a, b].length - 1)
        rw [List.count_cons_self]
        omega
      | false =>
        rw [countFrom_zero_miss _ _ _ h]
        have := ih 0
        omega
    | succ k =>
      rw [countFrom_succ]
      have := ih k
      omega

theorem countFrom_le_count_second (e a : Char) (hne : e ≠ a) (l : List Char) :
    countFrom [e, a] 0 l ≤ l.count a ∧ ∀ k, countFrom [e, a] (k + 1) l ≤ l.tail.count a := by
  induction l with
  | nil => simp [countFrom]
  | cons c cs ih =>
    have h2 := List.count_le_count_cons a c cs
    have htail : cs.tail.count a ≤ cs.count a := by
      cases cs with
      | nil => simp
      | cons d ds => exact List.count_le_count_cons a d ds
    refine ⟨?_, fun k => ?_⟩
    · cases h : [e, a].isPrefixOf (c :: cs) with
      | true =>
        rw [countFrom_zero_hit _ _ _ h]
        obtain ⟨hc, hrest⟩ := head_eq_of_isPrefixOf e [a] c cs h
        subst hc
        cases cs with
        | nil => simp [List.isPrefixOf] at hrest
        | cons d ds =>
          have hd := (head_eq_of_isPrefixOf a [] d ds hrest).1
          subst hd
          have := ih.2 0
          rw [List.count_cons_of_ne (Ne.symm hne), List.count_cons_self,
            show [e, a].length - 1 = 1 from rfl]
          rw [Nat.zero_add, List.tail_cons] at this
          omega
      | false =>
        rw [countFrom_zero_miss _ _ _ h]
        have := ih.1
        omega
    · rw [countFrom_succ, List.tail_cons]
      cases k with
      | zero => exact ih.1
      | succ k =>
        have := ih.2 k
        omega

theorem countFrom_lt_count_second (e a : Char) (hne : e ≠ a) (post : List Char)
    (pre : List Char) (hpre : pre.getLast? ≠ some e) :
    countFrom [e, a] 0 (pre ++ a :: post) < (pre ++ a :: post).count a ∧
    (pre ≠ [] → countFrom [e, a] 1 (pre ++ a :: post) < (pre ++ a :: post).tail.count a) := by
  induction pre with
  | nil =>
    refine ⟨?_, fun h => absurd rfl h⟩
    have hnp : [e, a].isPrefixOf (a :: post) = false := by
      simp [List.isPrefixOf, hne]
    rw [List.nil_append, List.count_cons_self, countFrom_zero_miss _ _ _ hnp]
    have := (countFrom_le_count_second e a hne post).1
    omega
  | cons c pre ih =>
    have hpre2 : pre.getLast? ≠ some e := by
      cases pre with
      | nil => simp
      | cons d ds => simpa [List.getLast?_cons_cons] using hpre
    obtain ⟨ih1, ih2⟩ := ih hpre2
    rw [List.cons_append]
    have h2 := List.count_le_count_cons a c (pre ++ a :: post)
    refine ⟨?_, fun _ => ?_⟩
    · cases h : [e, a].isPrefixOf (c :: (pre ++ a :: post)) with
      | true =>
        rw [countFrom_zero_hit _ _ _ h]
        obtain ⟨hc, hrest⟩ := head_eq_of_isPrefixOf e [a] c _ h
        subst hc
        have hne2 : pre ≠ [] := by
          intro hnil
          subst hnil
          simp at hpre
        have := ih2 hne2
        rw [List.count_cons_of_ne (Ne.symm hne)]
        cases hl : pre ++ a :: post with
        | nil => simp at hl
        | cons d ds =>
          rw [hl] at this hrest
          have hd := (head_eq_of_isPrefixOf a [] d ds hrest).1
          subst hd
          rw [List.count_cons_self, show [e, a].length - 1 = 1 from rfl]
          rw [List.tail_cons] at this
          omega
      | false =>
        rw [countFrom_zero_miss _ _ _ h]
        omega
    · rw [countFrom_succ, List.tail_cons]
      exact ih1

theorem countFrom_single (a : Char) (l : List Char) :
    countFrom [a] 0 l = l.count a := by
  induction l with
  | nil => simp [countFrom]
  | cons c cs ih =>
    cases h : [a].isPrefixOf (c :: cs) with
    | true =>
      rw [countFrom_zero_hit _ _ _ h, show [a].length - 1 = 0 from rfl, ih]
      have hc := (head_eq_of_isPrefixOf a [] c cs h).1
      subst hc
      rw [List.count_cons_self]
      omega
    | false =>
      rw [countFrom_zero_miss _ _ _ h, ih]
      have hc : c ≠ a := by
        intro hc
        subst hc
        simp [List.isPrefixOf] at h
      rw [List.count_cons_of_ne (Ne.symm hc)]

theorem rejects_of_declaresCapturingGroup (regexstr : String)
    (h : declaresCapturingGroup regexstr) : rejectsFragment regexstr := by
  obtain ⟨pre, post, hsplit, hpre, hpost⟩ := h
  have hopen : Count regexstr "(" = regexstr.data.count '(' := by
    simp only [Count]
    rw [if_neg (by decide)]
    exact countFrom_single '(' regexstr.data
  have hq : Count regexstr "(?" < regexstr.data.count '(' := by
    simp only [Count]
    rw [if_neg (by decide), hsplit]
    exact countFrom_lt_count_head '(' '?' post hpost pre 0
  have hb : Count regexstr "\\(" < regexstr.data.count '(' := by
    simp only [Count]
    rw [if_neg (by decide), hsplit]
    exact (countFrom_lt_count_second '\\' '(' (by decide) post pre hpre).1
  constructor <;> omega

theorem swapLoop_rejects (path : String) (swap : List (String × String)) :
    ∀ (tokens : String) (replacements : List String),
    (∃ p, p ∈ swap ∧ rejectsFragment p.1) →
    ∃ target, target ∈ swap.map Prod.fst ∧ rejectsFragment target ∧
      swapLoop path swap tokens replacements
        = .error (ConfigError.E201FromTarget captureGroupMsg target path) := by
  induction swap with
  | nil => intro _ _ h; obtain ⟨p, hp, _⟩ := h; simp at hp
  | cons q rest ih =>
    intro tokens replacements h
    obtain ⟨regexstr, replacement⟩ := q
    by_cases hq : rejectsFragment regexstr
    · exact ⟨regexstr, by simp, hq, by simp only [swapLoop]; rw [if_pos hq]⟩
    · have hrest : ∃ p, p ∈ rest ∧ rejectsFragment p.1 := by
        obtain ⟨p, hp, hr⟩ := h
        rcases List.mem_cons.mp hp with heq | hmem
        · subst heq; exact absurd hr hq
        · exact ⟨p, hmem, hr⟩
      obtain ⟨target, hmem, hrej, heq⟩ :=
        ih (tokens ++ "(" ++ regexstr ++ ")|") (replacements ++ [replacement]) hrest
      refine ⟨target, ?_, hrej, ?_⟩
      · simp only [List.map_cons, List.mem_cons]; exact Or.inr hmem
      · simp only [swapLoop]; rw [if_neg hq]; exact heq

theorem swapLoop_accepts (path : String) (swap : List (String × String)) :
    ∀ (tokens : String) (replacements : List String),
    (∀ p, p ∈ swap → ¬ rejectsFragment p.1) →
    ∃ out, swapLoop path swap tokens replacements
        = .ok (out, replacements ++ swap.map Prod.snd) ∧
      out.data = tokens.data ++
        (swap.map (fun p => '(' :: (p.1.data ++ [')', '|']))).flatten := by
  induction swap with
  | nil => intro tokens replacements _; exact ⟨tokens, by simp [swapLoop], by simp⟩
  | cons q rest ih =>
    intro tokens replacements h
    obtain ⟨regexstr, replacement⟩ := q
    have hq : ¬ rejectsFragment regexstr := h (regexstr, replacement) (by simp)
    obtain ⟨out, heq, hdata⟩ :=
      ih (tokens ++ "(" ++ regexstr ++ ")|") (replacements ++ [replacement])
        (fun p hp => h p (List.mem_cons_of_mem _ hp))
    refine ⟨out, ?_, ?_⟩
    · simp only [swapLoop]; rw [if_neg hq, heq]; simp
    · rw [hdata]
      simp [String.data_append]

theorem alternationBody_data (fs : List String) (hne : fs ≠ []) :
    ∃ body, (alternationBody fs).data = body ++ [')'] ∧
      (fs.map (fun f => '(' :: (f.data ++ [')', '|']))).flatten = body ++ [')', '|'] := by
  induction fs with
  | nil => exact absurd rfl hne
  | cons f rest ih =>
    cases rest with
    | nil =>
      exact ⟨'(' :: f.data, by simp [alternationBody, String.data_append], by simp⟩
    | cons g rest =>
      obtain ⟨body, h1, h2⟩ := ih (by simp)
      refine ⟨'(' :: (f.data ++ [')', '|'] ++ body), ?_, ?_⟩
      · simp only [alternationBody, String.data_append, h1]
        simp
      · rw [List.map_cons, List.flatten_cons, h2]
        simp

theorem trimRight_tokens (tokens : String) (fs : List String)
    (h : tokens.data = (fs.map (fun f => '(' :: (f.data ++ [')', '|']))).flatten) :
    TrimRight tokens "|" = alternationBody fs := by
  cases fs with
  | nil =>
    simp at h
    simp [TrimRight, h, alternationBody]
  | cons f rest =>
    obtain ⟨body, h1, h2⟩ := alternationBody_data (f :: rest) (by simp)
    rw [h2] at h
    apply String.ext
    rw [h1]
    simp [TrimRight, h]

theorem newSubstitution_of_accepts (env : Env) (cfg : Config) (generic : baseCheck)
    (path : String) (re : Option Regexp)
    (hpath : pathString generic = some path)
    (hdec : (env.decodeSubstitution generic).2 = none)
    (hexc : env.updateExceptions (env.decodeSubstitution generic).1.Exceptions
      cfg.AcceptedTokens = .ok re)
    (hvalid : ∀ p, p ∈ (env.decodeSubstitution generic).1.Swap → ¬ rejectsFragment p.1) :
    NewSubstitution env cfg generic =
      match env.CompileStd (env.Sprintf
        (env.makeRegexp cfg.WordTemplate (env.decodeSubstitution generic).1.Ignorecase
          (!(env.decodeSubstitution generic).1.Nonword) "" true)
        (alternationBody ((env.decodeSubstitution generic).1.Swap.map Prod.fst))) with
      | .ok p =>
        some ({ (env.decodeSubstitution generic).1 with
          exceptRe := re, pattern := some p,
          repl := (env.decodeSubstitution generic).1.Swap.map Prod.snd }, none)
      | .error err =>
        some ({ (env.decodeSubstitution generic).1 with
          exceptRe := re, pattern := none, repl := [] },
          some (ConfigError.E201FromPosition err path 1)) := by
  obtain ⟨out, hloop, hdata⟩ :=
    swapLoop_accepts path (env.decodeSubstitution generic).1.Swap "" [] hvalid
  have htrim : TrimRight out "|"
      = alternationBody ((env.decodeSubstitution generic).1.Swap.map Prod.fst) := by
    apply trimRight_tokens
    rw [hdata]
    simp [List.map_map, Function.comp_def]
  simp only [NewSubstitution, hpath, hdec, hexc, hloop, htrim, List.nil_append]
  cases env.CompileStd (env.Sprintf
        (env.makeRegexp cfg.WordTemplate (env.decodeSubstitution generic).1.Ignorecase
          (!(env.decodeSubstitution generic).1.Nonword) "" true)
        (alternationBody ((env.decodeSubstitution generic).1.Swap.map Prod.fst))) <;> rfl

/-- C5: for a swap table `(f1,r1),...,(fn,rn)`, in the order of iteration, whose fragments
all pass the validation, the loop of `NewSubstitution` ends with the replacements
`[r1,...,rn]`; the body that is substituted into the pattern template, the trimmed
`tokens`, is exactly `(f1)|(f2)|...|(fn)`; the entry at position `i` of the
replacements is the replacement of the fragment at position `i`; and `NewSubstitution`
compiles the template filled with that body and, when it compiles, returns the rule with
`repl = [r1,...,rn]`. -/
theorem newSubstitution_positional_table (env : Env) (cfg : Config) (generic : baseCheck)
    (path : String) (re : Option Regexp)
    (hpath : pathString generic = some path)
    (hdec : (env.decodeSubstitution generic).2 = none)
    (hexc : env.updateExceptions (env.decodeSubstitution generic).1.Exceptions
      cfg.AcceptedTokens = .ok re)
    (hvalid : ∀ p, p ∈ (env.decodeSubstitution generic).1.Swap → ¬ rejectsFragment p.1) :
    (∃ tokens,
      swapLoop path (env.decodeSubstitution generic).1.Swap "" []
        = .ok (tokens, (env.decodeSubstitution generic).1.Swap.map Prod.snd) ∧
      TrimRight tokens "|"
        = alternationBody ((env.decodeSubstitution generic).1.Swap.map Prod.fst)) ∧
    ((env.decodeSubstitution generic).1.Swap.map Prod.snd).length
      = (env.decodeSubstitution generic).1.Swap.length ∧
    (∀ (i : Nat) (f r : String), (env.decodeSubstitution generic).1.Swap[i]? = some (f, r) →
      ((env.decodeSubstitution generic).1.Swap.map Prod.fst)[i]? = some f ∧
      ((env.decodeSubstitution generic).1.Swap.map Prod.snd)[i]? = some r) ∧
    NewSubstitution env cfg generic =
      match env.CompileStd (env.Sprintf
        (env.makeRegexp cfg.WordTemplate (env.decodeSubstitution generic).1.Ignorecase
          (!(env.decodeSubstitution generic).1.Nonword) "" true)
        (alternationBody ((env.decodeSubstitution generic).1.Swap.map Prod.fst))) with
      | .ok p =>
        some ({ (env.decodeSubstitution generic).1 with
          exceptRe := re, pattern := some p,
          repl := (env.decodeSubstitution generic).1.Swap.map Prod.snd }, none)
      | .error err =>
        some ({ (env.decodeSubstitution generic).1 with
          exceptRe := re, pattern := none, repl := [] },
          some (ConfigError.E201FromPosition err path 1)) := by
  refine ⟨?_, by simp, ?_, newSubstitution_of_accepts env cfg generic path re hpath hdec hexc
    hvalid⟩
  · obtain ⟨out, hloop, hdata⟩ :=
      swapLoop_accepts path (env.decodeSubstitution generic).1.Swap "" [] hvalid
    refine ⟨out, by simpa using hloop, ?_⟩
    apply trimRight_tokens
    rw [hdata]
    simp [List.map_map, Function.comp_def]
  · intro i f r h
    simp [List.getElem?_map, h]

/-- Witness of C5: a table of two fragments, the second of which ends in `|`. -/
theorem newSubstitution_positional_table_witness :
    ∃ tokens,
      swapLoop "styles/Docs/Terms.yml"
          [("(?:NodeJS)", "Node.js"), ("javascript|", "JavaScript")] "" []
        = .ok (tokens, ["Node.js", "JavaScript"]) ∧
      TrimRight tokens "|" = "((?:NodeJS))|(javascript|)" :=
  (newSubstitution_positional_table sampleEnv sampleConfig
    (sampleGeneric "styles/Docs/Terms.yml"
      [("(?:NodeJS)", "Node.js"), ("javascript|", "JavaScript")])
    "styles/Docs/Terms.yml" none rfl rfl rfl (by decide)).1

/-- C6: when the swap table has a fragment with a `(` that is neither immediately
followed by `?` nor immediately preceded by a backslash, and construction reaches the
loop over the table (`path` is a string, the configuration decodes, the exception set
compiles), `NewSubstitution` returns the capture-group error; its target is a fragment of
the table that the validation rejects, and the returned rule has no compiled pattern. -/
theorem newSubstitution_rejects_capturing_group (env : Env) (cfg : Config)
    (generic : baseCheck) (path : String) (re : Option Regexp)
    (hpath : pathString generic = some path)
    (hdec : (env.decodeSubstitution generic).2 = none)
    (hexc : env.updateExceptions (env.decodeSubstitution generic).1.Exceptions
      cfg.AcceptedTokens = .ok re)
    (hcap : ∃ p, p ∈ (env.decodeSubstitution generic).1.Swap ∧ declaresCapturingGroup p.1) :
    ∃ rule target,
      NewSubstitution env cfg generic
        = some (rule, some (ConfigError.E201FromTarget
            "capture group not supported; use '(?:' instead of '('" target path)) ∧
      target ∈ (env.decodeSubstitution generic).1.Swap.map Prod.fst ∧
      rejectsFragment target ∧
      rule.pattern = none ∧ rule.repl = [] := by
  obtain ⟨p, hmem, hdecl⟩ := hcap
  obtain ⟨target, htarget, hrej, hloop⟩ :=
    swapLoop_rejects path (env.decodeSubstitution generic).1.Swap "" []
      ⟨p, hmem, rejects_of_declaresCapturingGroup p.1 hdecl⟩
  refine ⟨{ (env.decodeSubstitution generic).1 with
    exceptRe := re, pattern := none, repl := [] }, target, ?_, htarget, hrej, rfl, rfl⟩
  simp only [NewSubstitution, hpath, hdec, hexc, hloop]
  rfl

/-- Witness of C6: the swap key `(foo)`. -/
theorem newSubstitution_rejects_capturing_group_witness :
    declaresCapturingGroup "(foo)" ∧
    ∃ rule target,
      NewSubstitution sampleEnv sampleConfig
          (sampleGeneric "styles/Docs/Terms.yml" [("(?:bar)", "baz"), ("(foo)", "qux")])
        = some (rule, some (ConfigError.E201FromTarget
            "capture group not supported; use '(?:' instead of '('" target
            "styles/Docs/Terms.yml")) ∧
      target ∈ (sampleEnv.decodeSubstitution
        (sampleGeneric "styles/Docs/Terms.yml"
          [("(?:bar)", "baz"), ("(foo)", "qux")])).1.Swap.map Prod.fst ∧
      rejectsFragment target ∧
      rule.pattern = none ∧ rule.repl = [] :=
  ⟨⟨[], ['f', 'o', 'o', ')'], rfl, by decide, by decide⟩,
    newSubstitution_rejects_capturing_group sampleEnv sampleConfig
      (sampleGeneric "styles/Docs/Terms.yml" [("(?:bar)", "baz"), ("(foo)", "qux")])
      "styles/Docs/Terms.yml" none rfl rfl rfl
      ⟨("(foo)", "qux"), by decide, ⟨[], ['f', 'o', 'o', ')'], rfl, by decide, by decide⟩⟩⟩

theorem scanCapture_of_split (post : List Char) (hpost : post.head? ≠ some '?')
    (pre : List Char) :
    ∀ prev : Option Char, (pre.getLast?).or prev ≠ some '\\' →
      scanCapture prev (pre ++ '(' :: post) = true := by
  induction pre with
  | nil =>
    intro prev h
    simp only [List.getLast?_nil, Option.none_or] at h
    simp [scanCapture, h, hpost]
  | cons c pre ih =>
    intro prev h
    have h2 : (pre.getLast?).or (some c) ≠ some '\\' := by
      cases pre with
      | nil => simpa using h
      | cons d ds =>
        rw [List.getLast?_cons_cons] at h
        cases hl : (d :: ds).getLast? with
        | none => simp at hl
        | some x => rw [hl] at h; simpa using h
    simp [scanCapture, ih (some c) h2]

theorem scanCapture_of_declares (regexstr : String) (h : declaresCapturingGroup regexstr) :
    scanCapture none regexstr.data = true := by
  obtain ⟨pre, post, hsplit, hpre, hpost⟩ := h
  rw [hsplit]
  apply scanCapture_of_split post hpost pre none
  cases hl : pre.getLast? with
  | none => simp
  | some x => rw [hl] at hpre; simpa using hpre

/-- C7, evaluated at a failing input: the fragment `(?:a)\(` holds a non-capturing group
and an escaped parenthesis, so it declares no capturing group, and `NewSubstitution`
still returns the capture-group error for it. -/
theorem newSubstitution_rejects_mixed_fragment :
    ¬ declaresCapturingGroup "(?:a)\\(" ∧
    (NewSubstitution sampleEnv sampleConfig
        (sampleGeneric "styles/Docs/Terms.yml" [("(?:a)\\(", "b")])).map Prod.snd
      = some (some (ConfigError.E201FromTarget
          "capture group not supported; use '(?:' instead of '('" "(?:a)\\("
          "styles/Docs/Terms.yml")) :=
  ⟨fun h => absurd (scanCapture_of_declares _ h) (by decide), by decide⟩


/-! ### `Substitution.Run` -/

/-- One step of the inner loop at an even index `2k` whose entry `lo` is followed by `hi`. -/
theorem visit_even (env : Env) (s : Substitution) (txt : String) (submat : List Int)
    (k : Nat) (lo hi : Int) (msg : String) (alerts : List Alert)
    (hhi : submat[2 * k + 1]? = some hi) :
    Substitution.visit env txt submat (2 * k) lo (s.withMessage msg, alerts) =
      if 1 ≤ k ∧ lo ≠ -1 then
        match s.repl[k - 1]? with
        | none => none
        | some r =>
          if s.reports env txt { group := k, lo := lo, hi := hi, replacement := r } then
            some (s.withMessage (s.nextMessage msg),
              alerts ++ [s.alertFor env txt (s.nextMessage msg)
                { group := k, lo := lo, hi := hi, replacement := r }])
          else some (s.withMessage msg, alerts)
      else some (s.withMessage msg, alerts) := by
  have hk : 2 * k / 2 - 1 = k - 1 := by omega
  by_cases hc : 1 ≤ k ∧ lo ≠ -1
  · have hc2 : lo ≠ -1 ∧ 2 * k > 0 ∧ 2 * k % 2 = 0 := ⟨hc.2, by omega, by omega⟩
    rw [if_pos hc]
    simp only [Substitution.visit]
    rw [if_pos hc2, hhi, hk]
    simp only [Substitution.withMessage]
    cases hr : s.repl[k - 1]? with
    | none => rfl
    | some r =>
      simp only [Substitution.reports, Hit.observed, Substitution.nextMessage,
        Substitution.alertFor, Substitution.expectedFor, Substitution.withMessage]
      by_cases hrep : (!env.matchToken r (TrimSpace (env.re2Loc txt [lo, hi])) s.Ignorecase &&
          !env.isMatch s.exceptRe (TrimSpace (env.re2Loc txt [lo, hi]))) = true
      · rw [if_pos hrep, if_pos hrep]
        by_cases hact : s.Definition.Action.Name = "replace" ∧
            s.Definition.Action.Params.length = 0
        · simp only [if_pos hact]
        · simp only [if_neg hact]
      · rw [if_neg hrep, if_neg hrep]
  · have hc2 : ¬ (lo ≠ -1 ∧ 2 * k > 0 ∧ 2 * k % 2 = 0) := by
      intro h
      exact hc ⟨by omega, h.1⟩
    rw [if_neg hc]
    simp only [Substitution.visit]
    rw [if_neg hc2]

theorem visit_odd (env : Env) (txt : String) (submat : List Int)
    (k : Nat) (mat : Int) (st : Substitution × List Alert) :
    Substitution.visit env txt submat (2 * k + 1) mat st = some st := by
  simp only [Substitution.visit]
  rw [if_neg (by omega)]

theorem emit_append (env : Env) (s : Substitution) (txt : String) (hs1 hs2 : List Hit) :
    ∀ msg, Substitution.emit env s txt msg (hs1 ++ hs2) =
      Substitution.emit env s txt msg hs1 ++
        Substitution.emit env s txt ((s.nextMessage)^[hs1.length] msg) hs2 := by
  induction hs1 with
  | nil => intro msg; simp [Substitution.emit]
  | cons h rest ih =>
    intro msg
    have e := ih (s.nextMessage msg)
    simp only [List.cons_append, Substitution.emit, List.length_cons,
      Function.iterate_succ, Function.comp_apply]
    exact congrArg _ e

theorem emit_length (env : Env) (s : Substitution) (txt : String) (hs : List Hit) :
    ∀ msg, (Substitution.emit env s txt msg hs).length = hs.length := by
  induction hs with
  | nil => intro msg; simp [Substitution.emit]
  | cons h rest ih => intro msg; simp [Substitution.emit, ih]

theorem participatingFrom_cons (s : Substitution) (k : Nat) (lo hi : Int)
    (spans : List (Int × Int)) :
    s.participatingFrom k ((lo, hi) :: spans) =
      (if 1 ≤ k ∧ lo ≠ -1 then
        match s.repl[k - 1]? with
        | none => []
        | some r => [{ group := k, lo := lo, hi := hi, replacement := r }]
      else []) ++ s.participatingFrom (k + 1) spans := by
  simp only [Substitution.participatingFrom, List.enumFrom_cons, List.filterMap_cons]
  by_cases hc : 1 ≤ k ∧ lo ≠ -1
  · rw [if_pos hc, if_pos hc]
    cases hr : s.repl[k - 1]? <;> simp
  · rw [if_neg hc, if_neg hc]
    simp

/-- The inner loop from the even index `2k` on: either it panics, or it appends the alerts
of the reported groups `k, k+1, ...`; it does not panic when the rest of the array has an
even length and every group it covers has a replacement. -/
theorem eachIndex_even (env : Env) (s : Substitution) (txt : String) (submat : List Int) :
    ∀ (rest pre : List Int) (k : Nat) (msg : String) (alerts : List Alert),
      submat = pre ++ rest → pre.length = 2 * k →
      (Substitution.eachIndex env txt submat (2 * k) rest (s.withMessage msg, alerts) = none ∨
       Substitution.eachIndex env txt submat (2 * k) rest (s.withMessage msg, alerts) =
        some (s.withMessage
            ((s.nextMessage)^[((s.participatingFrom k (groupSpans rest)).filter
              (s.reports env txt)).length] msg),
          alerts ++ Substitution.emit env s txt msg
            ((s.participatingFrom k (groupSpans rest)).filter (s.reports env txt)))) ∧
      (rest.length % 2 = 0 → k + rest.length / 2 ≤ s.repl.length + 1 →
        Substitution.eachIndex env txt submat (2 * k) rest (s.withMessage msg, alerts) ≠ none)
  | [], pre, k, msg, alerts, _, _ => by
    simp [Substitution.eachIndex, groupSpans, Substitution.participatingFrom,
      Substitution.emit]
  | [lo], pre, k, msg, alerts, hsub, hlen => by
    have hnone : submat[2 * k + 1]? = none := by
      rw [hsub]
      apply List.getElem?_eq_none
      simp
      omega
    refine ⟨?_, fun h => by simp at h⟩
    simp only [Substitution.eachIndex, Substitution.visit, hnone]
    by_cases hc : lo ≠ -1 ∧ 2 * k > 0 ∧ 2 * k % 2 = 0
    · left
      rw [if_pos hc]
    · right
      rw [if_neg hc]
      simp [groupSpans, Substitution.participatingFrom, Substitution.emit]
  | lo :: hi :: rest, pre, k, msg, alerts, hsub, hlen => by
    have hhi : submat[2 * k + 1]? = some hi := by
      rw [hsub, List.getElem?_append_right (by omega)]
      simp [hlen]
    have hstep : ∀ st, Substitution.eachIndex env txt submat (2 * k) (lo :: hi :: rest) st =
        match Substitution.visit env txt submat (2 * k) lo st with
        | none => none
        | some st1 => Substitution.eachIndex env txt submat (2 * (k + 1)) rest st1 := by
      intro st
      simp only [Substitution.eachIndex]
      cases Substitution.visit env txt submat (2 * k) lo st with
      | none => rfl
      | some st1 =>
        simp only [visit_odd]
        rfl
    have hsub2 : submat = (pre ++ [lo, hi]) ++ rest := by simp [hsub]
    have hlen2 : (pre ++ [lo, hi]).length = 2 * (k + 1) := by simp [hlen]; omega
    rw [hstep, visit_even env s txt submat k lo hi msg alerts hhi]
    simp only [groupSpans, participatingFrom_cons]
    by_cases hc : 1 ≤ k ∧ lo ≠ -1
    · simp only [if_pos hc]
      cases hr : s.repl[k - 1]? with
      | none =>
        refine ⟨Or.inl rfl, fun h1 h2 => ?_⟩
        exfalso
        have : k - 1 < s.repl.length := by
          simp only [List.length_cons] at h2
          omega
        rw [List.getElem?_eq_getElem this] at hr
        exact Option.noConfusion hr
      | some r =>
        simp only []
        by_cases hrep : s.reports env txt { group := k, lo := lo, hi := hi, replacement := r }
            = true
        · simp only [if_pos hrep, List.singleton_append, List.filter_cons_of_pos hrep,
            List.length_cons, Function.iterate_succ, Function.comp_apply, Substitution.emit]
          obtain ⟨ih1, ih2⟩ := eachIndex_even env s txt submat rest (pre ++ [lo, hi]) (k + 1)
            (s.nextMessage msg)
            (alerts ++ [s.alertFor env txt (s.nextMessage msg)
              { group := k, lo := lo, hi := hi, replacement := r }]) hsub2 hlen2
          refine ⟨?_, fun h1 h2 => ih2 ?_ ?_⟩
          · rcases ih1 with h | h
            · exact Or.inl h
            · right
              rw [h]
              simp
          · simp only [List.length_cons] at h1
            omega
          · simp only [List.length_cons] at h1 h2
            omega
        · simp only [if_neg hrep, List.singleton_append, List.filter_cons_of_neg hrep]
          obtain ⟨ih1, ih2⟩ := eachIndex_even env s txt submat rest (pre ++ [lo, hi]) (k + 1)
            msg alerts hsub2 hlen2
          refine ⟨ih1, fun h1 h2 => ih2 ?_ ?_⟩
          · simp only [List.length_cons] at h1
            omega
          · simp only [List.length_cons] at h1 h2
            omega
    · simp only [if_neg hc, List.nil_append]
      obtain ⟨ih1, ih2⟩ := eachIndex_even env s txt submat rest (pre ++ [lo, hi]) (k + 1)
        msg alerts hsub2 hlen2
      refine ⟨ih1, fun h1 h2 => ih2 ?_ ?_⟩
      · simp only [List.length_cons] at h1
        omega
      · simp only [List.length_cons] at h1 h2
        omega

theorem hits_cons (env : Env) (s : Substitution) (txt : String) (submat : List Int)
    (rest : List (List Int)) :
    s.hits env txt (submat :: rest) =
      (s.participatingFrom 0 (groupSpans submat)).filter (s.reports env txt) ++
        s.hits env txt rest := by
  simp [Substitution.hits]

/-- The outer loop: either it panics, or it appends the alerts of the reported hits of the
matches; it does not panic when every match array has an even length and no more groups
than there are replacements. -/
theorem eachMatch_eq (env : Env) (s : Substitution) (txt : String)
    (submatches : List (List Int)) :
    ∀ (msg : String) (alerts : List Alert),
      (Substitution.eachMatch env txt submatches (s.withMessage msg, alerts) = none ∨
       Substitution.eachMatch env txt submatches (s.withMessage msg, alerts) =
        some (s.withMessage ((s.nextMessage)^[(s.hits env txt submatches).length] msg),
          alerts ++ Substitution.emit env s txt msg (s.hits env txt submatches))) ∧
      ((∀ submat, submat ∈ submatches →
          submat.length % 2 = 0 ∧ submat.length / 2 ≤ s.repl.length + 1) →
        Substitution.eachMatch env txt submatches (s.withMessage msg, alerts) ≠ none) := by
  induction submatches with
  | nil =>
    intro msg alerts
    simp [Substitution.eachMatch, Substitution.hits, Substitution.emit]
  | cons submat rest ih =>
    intro msg alerts
    obtain ⟨h1, h2⟩ := eachIndex_even env s txt submat submat [] 0 msg alerts rfl rfl
    simp only [Nat.mul_zero] at h1 h2
    simp only [Substitution.eachMatch, hits_cons]
    rcases h1 with h | h
    · refine ⟨Or.inl (by rw [h]), fun hwf => ?_⟩
      exfalso
      obtain ⟨w1, w2⟩ := hwf submat (by simp)
      exact h2 w1 (by omega) h
    · rw [h]
      simp only []
      obtain ⟨ih1, ih2⟩ := ih
        ((s.nextMessage)^[((s.participatingFrom 0 (groupSpans submat)).filter
              (s.reports env txt)).length] msg)
        (alerts ++ Substitution.emit env s txt msg
            ((s.participatingFrom 0 (groupSpans submat)).filter (s.reports env txt)))
      refine ⟨?_, fun hwf => ih2 (fun sm hsm => hwf sm (List.mem_cons_of_mem _ hsm))⟩
      rcases ih1 with g | g
      · exact Or.inl g
      · right
        rw [g, emit_append, List.length_append, Nat.add_comm, Function.iterate_add_apply]
        simp

theorem withMessage_self (s : Substitution) : s.withMessage s.Definition.Message = s := rfl

/-- `Substitution.Run` on a text that the pattern matches: a panic, or the alerts of the
reported hits. -/
theorem run_eq_emit (env : Env) (s : Substitution) (re : Regexp) (txt : String)
    (hp : s.pattern = some re) (hm : re.MatchStringStd txt = true) :
    (s.Run env txt = none ∨
      s.Run env txt = some (Substitution.emit env s txt s.Definition.Message
        (s.hits env txt (re.FindAllStringSubmatchIndex txt)))) ∧
    ((∀ submat, submat ∈ re.FindAllStringSubmatchIndex txt →
        submat.length % 2 = 0 ∧ submat.length / 2 ≤ s.repl.length + 1) →
      s.Run env txt ≠ none) := by
  obtain ⟨h1, h2⟩ := eachMatch_eq env s txt (re.FindAllStringSubmatchIndex txt)
    s.Definition.Message []
  rw [withMessage_self] at h1 h2
  simp only [Substitution.Run, hp, hm]
  refine ⟨?_, fun hwf => ?_⟩
  · rcases h1 with h | h
    · left; rw [h]; rfl
    · right; rw [h]; simp
  · have := h2 hwf
    cases hq : Substitution.eachMatch env txt (re.FindAllStringSubmatchIndex txt) (s, []) with
    | none => exact absurd hq this
    | some st => simp

theorem groupSpans_getElem? :
    ∀ (l : List Int) (j : Nat) (lo hi : Int),
      (groupSpans l)[j]? = some (lo, hi) ↔ l[2 * j]? = some lo ∧ l[2 * j + 1]? = some hi
  | [], j, lo, hi => by simp [groupSpans]
  | [a], j, lo, hi => by
    simp only [groupSpans, List.getElem?_nil]
    constructor
    · intro h
      exact Option.noConfusion h
    · rintro ⟨_, h⟩
      rw [List.getElem?_eq_none (by simp)] at h
      exact Option.noConfusion h
  | a :: b :: rest, 0, lo, hi => by
    simp [groupSpans]
  | a :: b :: rest, j + 1, lo, hi => by
    have ih := groupSpans_getElem? rest j lo hi
    have e1 : 2 * (j + 1) = 2 * j + 1 + 1 := by omega
    simp only [groupSpans, List.getElem?_cons_succ, e1]
    exact ih

theorem mem_participatingFrom (s : Substitution) (h : Hit) :
    ∀ (spans : List (Int × Int)) (k : Nat),
      h ∈ s.participatingFrom k spans ↔
        ∃ j, spans[j]? = some (h.lo, h.hi) ∧ h.group = k + j ∧ 1 ≤ h.group ∧ h.lo ≠ -1 ∧
          s.repl[h.group - 1]? = some h.replacement := by
  intro spans
  induction spans with
  | nil => intro k; simp [Substitution.participatingFrom]
  | cons p rest ih =>
    intro k
    obtain ⟨lo, hi⟩ := p
    rw [participatingFrom_cons, List.mem_append, ih (k + 1)]
    constructor
    · rintro (h1 | ⟨j, hj, hg, hrest⟩)
      · by_cases hc : 1 ≤ k ∧ lo ≠ -1
        · rw [if_pos hc] at h1
          cases hr : s.repl[k - 1]? with
          | none => rw [hr] at h1; simp at h1
          | some r =>
            rw [hr] at h1
            simp only [List.mem_singleton] at h1
            subst h1
            exact ⟨0, by simp, by simp, hc.1, hc.2, hr⟩
        · rw [if_neg hc] at h1
          simp at h1
      · exact ⟨j + 1, by simpa using hj, by omega, hrest⟩
    · rintro ⟨j, hj, hg, h1, h2, h3⟩
      cases j with
      | zero =>
        left
        simp only [List.getElem?_cons_zero, Option.some.injEq, Prod.mk.injEq] at hj
        have hk : h.group = k := by omega
        have hc : 1 ≤ k ∧ lo ≠ -1 := ⟨by omega, by rw [hj.1]; exact h2⟩
        rw [if_pos hc, ← hk, h3]
        simp only [List.mem_singleton]
        cases h
        simp_all
      | succ j =>
        right
        exact ⟨j, by simpa using hj, by omega, h1, h2, h3⟩

/-- The hits of a run are exactly the (match, group) pairs of the specification: group `k ≥ 1` of
a match participated, has a replacement, and its observed text neither matches the
replacement nor is excepted. -/
theorem mem_hits (env : Env) (s : Substitution) (txt : String)
    (submatches : List (List Int)) (h : Hit) :
    h ∈ s.hits env txt submatches ↔
      ∃ submat, submat ∈ submatches ∧ 1 ≤ h.group ∧
        submat[2 * h.group]? = some h.lo ∧ submat[2 * h.group + 1]? = some h.hi ∧
        h.lo ≠ -1 ∧ s.repl[h.group - 1]? = some h.replacement ∧
        env.matchToken h.replacement (TrimSpace (env.re2Loc txt [h.lo, h.hi])) s.Ignorecase
          = false ∧
        env.isMatch s.exceptRe (TrimSpace (env.re2Loc txt [h.lo, h.hi])) = false := by
  simp only [Substitution.hits, List.mem_flatten, List.mem_map, exists_exists_and_eq_and,
    List.mem_filter, mem_participatingFrom, Substitution.reports, Hit.observed,
    Bool.and_eq_true, Bool.not_eq_true', Nat.zero_add]
  constructor
  · rintro ⟨submat, hsm, ⟨j, hj, hg, h1, h2, h3⟩, h4, h5⟩
    rw [← hg, groupSpans_getElem?] at hj
    exact ⟨submat, hsm, h1, hj.1, hj.2, h2, h3, h4, h5⟩
  · rintro ⟨submat, hsm, h1, hlo, hhi, h2, h3, h4, h5⟩
    exact ⟨submat, hsm, ⟨h.group, (groupSpans_getElem? _ _ _ _).mpr ⟨hlo, hhi⟩, rfl, h1, h2,
      h3⟩, h4, h5⟩

theorem mem_emit (env : Env) (s : Substitution) (txt : String) (a : Alert) :
    ∀ (hs : List Hit) (msg : String), a ∈ Substitution.emit env s txt msg hs →
      ∃ h, h ∈ hs ∧ ∃ m, a = s.alertFor env txt m h := by
  intro hs
  induction hs with
  | nil => intro msg h; simp [Substitution.emit] at h
  | cons h rest ih =>
    intro msg ha
    simp only [Substitution.emit, List.mem_cons] at ha
    rcases ha with ha | ha
    · exact ⟨h, by simp, _, ha⟩
    · obtain ⟨h', hm, m, e⟩ := ih _ ha
      exact ⟨h', List.mem_cons_of_mem _ hm, m, e⟩

/-- X1: for a rule with a compiled pattern whose match arrays are well formed (an even
number of entries, no more capture groups than replacements), `Substitution.Run` returns,
in the order of the matches and of the groups, one alert for each hit, where the hits are
exactly the pairs of a match and a group `k ≥ 1` that participated (start offset other
than `-1`) and whose trimmed observed text neither equals `repl[k-1]` according to
`matchToken` nor is excepted; a text without a match gives the empty list. -/
theorem substitution_run_alerts (env : Env) (s : Substitution) (re : Regexp) (txt : String)
    (hp : s.pattern = some re)
    (hcoh : re.MatchStringStd txt = false → re.FindAllStringSubmatchIndex txt = [])
    (hwf : ∀ submat, submat ∈ re.FindAllStringSubmatchIndex txt →
      submat.length % 2 = 0 ∧ submat.length / 2 ≤ s.repl.length + 1) :
    s.Run env txt = some (Substitution.emit env s txt s.Definition.Message
      (s.hits env txt (re.FindAllStringSubmatchIndex txt))) ∧
    (Substitution.emit env s txt s.Definition.Message
      (s.hits env txt (re.FindAllStringSubmatchIndex txt))).length
      = (s.hits env txt (re.FindAllStringSubmatchIndex txt)).length ∧
    (∀ h, h ∈ s.hits env txt (re.FindAllStringSubmatchIndex txt) ↔
      ∃ submat, submat ∈ re.FindAllStringSubmatchIndex txt ∧ 1 ≤ h.group ∧
        submat[2 * h.group]? = some h.lo ∧ submat[2 * h.group + 1]? = some h.hi ∧
        h.lo ≠ -1 ∧ s.repl[h.group - 1]? = some h.replacement ∧
        env.matchToken h.replacement (TrimSpace (env.re2Loc txt [h.lo, h.hi])) s.Ignorecase
          = false ∧
        env.isMatch s.exceptRe (TrimSpace (env.re2Loc txt [h.lo, h.hi])) = false) ∧
    (re.MatchStringStd txt = false ∨ re.FindAllStringSubmatchIndex txt = [] →
      s.Run env txt = some []) := by
  have hrun : s.Run env txt = some (Substitution.emit env s txt s.Definition.Message
      (s.hits env txt (re.FindAllStringSubmatchIndex txt))) := by
    cases hm : re.MatchStringStd txt with
    | false =>
      rw [hcoh hm]
      simp [Substitution.Run, hp, hm, Substitution.hits, Substitution.emit]
    | true =>
      obtain ⟨h1, h2⟩ := run_eq_emit env s re txt hp hm
      rcases h1 with h | h
      · exact absurd h (h2 hwf)
      · exact h
  refine ⟨hrun, emit_length env s txt _ _, fun h => mem_hits env s txt _ h, ?_⟩
  rintro (hm | hnil)
  · simp [Substitution.Run, hp, hm]
  · rw [hrun, hnil]
    simp [Substitution.hits, Substitution.emit]

/-- Witness of X1: the two matches of `I use NodeJS and javascript daily.`. -/
theorem substitution_run_alerts_witness :
    (sampleSubstitution sampleSubmatches).Run sampleEnv "I use NodeJS and javascript daily."
      = some (Substitution.emit sampleEnv (sampleSubstitution sampleSubmatches)
          "I use NodeJS and javascript daily."
          (sampleSubstitution sampleSubmatches).Definition.Message
          [{ group := 1, lo := 6, hi := 12, replacement := "Node.js" },
           { group := 2, lo := 17, hi := 27, replacement := "JavaScript" }]) :=
  (substitution_run_alerts sampleEnv (sampleSubstitution sampleSubmatches)
    (fixedRegexp "(?i)(?m)\\b(?:((?:NodeJS))|((?:javascript)))\\b" sampleSubmatches)
    "I use NodeJS and javascript daily." rfl (fun h => absurd h (by decide))
    (by decide)).1

/-- C9: every alert that `Substitution.Run` returns belongs to a match and a capture
group `k ≥ 1` that participated in it, and its message and description are formatted
with an `expected` string that comes from `repl[k-1]` alone: `ToSentence(split(repl[k-1],
"|"), "or")` when the action is named `replace` and has no parameters, and `repl[k-1]`
itself otherwise; the alert is `makeAlert` at the span of that group with this message
and description. -/
theorem substitution_run_expected (env : Env) (s : Substitution) (re : Regexp)
    (txt : String) (alerts : List Alert) (a : Alert)
    (hp : s.pattern = some re) (hrun : s.Run env txt = some alerts) (ha : a ∈ alerts) :
    ∃ submat k lo hi r msg,
      submat ∈ re.FindAllStringSubmatchIndex txt ∧ 1 ≤ k ∧
      submat[2 * k]? = some lo ∧ submat[2 * k + 1]? = some hi ∧ lo ≠ -1 ∧
      s.repl[k - 1]? = some r ∧
      a = s.alertFor env txt msg { group := k, lo := lo, hi := hi, replacement := r } ∧
      (a.Message, a.Description) = env.formatMessages msg s.Definition.Description
        [if s.Definition.Action.Name = "replace" ∧ s.Definition.Action.Params.length = 0
          then env.ToSentence (Split r "|") "or" else r,
         TrimSpace (env.re2Loc txt [lo, hi])] := by
  cases hm : re.MatchStringStd txt with
  | false =>
    simp [Substitution.Run, hp, hm] at hrun
    subst hrun
    simp at ha
  | true =>
    obtain ⟨h1, _⟩ := run_eq_emit env s re txt hp hm
    rcases h1 with h | h
    · rw [h] at hrun
      exact Option.noConfusion hrun
    · rw [h] at hrun
      have e := Option.some.inj hrun
      subst e
      obtain ⟨hit, hmem, m, ea⟩ := mem_emit env s txt a _ _ ha
      obtain ⟨submat, hsm, hk, hlo, hhi, hne, hr, _, _⟩ :=
        (mem_hits env s txt _ hit).mp hmem
      refine ⟨submat, hit.group, hit.lo, hit.hi, hit.replacement, m, hsm, hk, hlo, hhi, hne,
        hr, ea, ?_⟩
      rw [ea]
      rfl

/-- Witness of C9: the first alert of the run on `I use NodeJS and javascript daily.`. -/
theorem substitution_run_expected_witness :
    ∃ submat k lo hi r msg,
      submat ∈ (fixedRegexp "(?i)(?m)\\b(?:((?:NodeJS))|((?:javascript)))\\b"
        sampleSubmatches).FindAllStringSubmatchIndex "I use NodeJS and javascript daily." ∧
      1 ≤ k ∧ submat[2 * k]? = some lo ∧ submat[2 * k + 1]? = some hi ∧ lo ≠ -1 ∧
      (sampleSubstitution sampleSubmatches).repl[k - 1]? = some r ∧
      Substitution.alertFor sampleEnv (sampleSubstitution sampleSubmatches)
          "I use NodeJS and javascript daily." "Use %s instead of '%s'"
          { group := 1, lo := 6, hi := 12, replacement := "Node.js" }
        = Substitution.alertFor sampleEnv (sampleSubstitution sampleSubmatches)
          "I use NodeJS and javascript daily." msg
          { group := k, lo := lo, hi := hi, replacement := r } ∧
      ((Substitution.alertFor sampleEnv (sampleSubstitution sampleSubmatches)
          "I use NodeJS and javascript daily." "Use %s instead of '%s'"
          { group := 1, lo := 6, hi := 12, replacement := "Node.js" }).Message,
       (Substitution.alertFor sampleEnv (sampleSubstitution sampleSubmatches)
          "I use NodeJS and javascript daily." "Use %s instead of '%s'"
          { group := 1, lo := 6, hi := 12, replacement := "Node.js" }).Description)
        = sampleEnv.formatMessages msg
          (sampleSubstitution sampleSubmatches).Definition.Description
          [if (sampleSubstitution sampleSubmatches).Definition.Action.Name = "replace" ∧
              (sampleSubstitution sampleSubmatches).Definition.Action.Params.length = 0
            then sampleEnv.ToSentence (Split r "|") "or" else r,
           TrimSpace (sampleEnv.re2Loc "I use NodeJS and javascript daily." [lo, hi])] :=
  substitution_run_expected sampleEnv (sampleSubstitution sampleSubmatches)
    (fixedRegexp "(?i)(?m)\\b(?:((?:NodeJS))|((?:javascript)))\\b" sampleSubmatches)
    "I use NodeJS and javascript daily." _ _ rfl rfl (List.mem_cons_self _ _)

/-- C8, evaluated at a failing input: for the rule that `NewSubstitution` returns for the
swap table with the single fragment `\\(a)`, the only match in the text `x\a` has group 1
participating with the observed text `\a`, which neither equals the replacement `b` nor is
excepted, so that one alert is due for it; and `Run` panics instead of returning it. -/
theorem substitution_run_panics_on_reported_group :
    ∃ rule,
      NewSubstitution escapedBackslashEnv sampleConfig
        (sampleGeneric "styles/Docs/Terms.yml" [("\\\\(a)", "b")]) = some (rule, none) ∧
      (rule.pattern.map (fun re => re.FindAllStringSubmatchIndex "x\\a"))
        = some [[1, 3, 1, 3, 2, 3]] ∧
      rule.hits escapedBackslashEnv "x\\a" [[1, 3, 1, 3, 2, 3]]
        = [{ group := 1, lo := 1, hi := 3, replacement := "b" }] ∧
      TrimSpace (escapedBackslashEnv.re2Loc "x\\a" [1, 3]) = "\\a" ∧
      rule.Run escapedBackslashEnv "x\\a" = none :=
  ⟨_, rfl, rfl, by decide, by decide, rfl⟩

/-- C10, evaluated at a failing input: the swap table with the single fragment `\\(a)` passes
the validation, `NewSubstitution` returns a rule with one replacement and no error, and
`Run` on the text `x\a`, where the group of the fragment participates as group 2, panics
on the lookup `repl[1]`. -/
theorem substitution_run_index_out_of_range :
    ¬ rejectsFragment "\\\\(a)" ∧
    ∃ rule,
      NewSubstitution escapedBackslashEnv sampleConfig
        (sampleGeneric "styles/Docs/Terms.yml" [("\\\\(a)", "b")]) = some (rule, none) ∧
      rule.repl = ["b"] ∧
      (rule.pattern.map (fun re => re.FindAllStringSubmatchIndex "x\\a"))
        = some [[1, 3, 1, 3, 2, 3]] ∧
      rule.Run escapedBackslashEnv "x\\a" = none :=
  ⟨by decide, _, rfl, rfl, rfl, rfl⟩

/-! ### `NewExistence` -/

/-- C11 as stated fails: it is not the case that the predicate is true unless
`Nonword` is true and `Tokens` is empty. With `Nonword = true` and the tokens `foo`, `bar`
the predicate is false, and `NewExistence` builds the pattern without word boundaries. -/
theorem existence_word_counterexample :
    ¬ (∀ rule : Existence, rule.word = true ↔ ¬ (rule.Nonword = true ∧ rule.Tokens = [])) ∧
    (NewExistence decodingEnv sampleConfig
      [("path", Value.str "styles/Docs/Terms.yml"), ("nonword", Value.bool true),
       ("tokens", Value.strs ["foo", "bar"])]).1.Pattern = some "(?m)(?:foo|bar)" := by
  refine ⟨fun h => ?_, by decide⟩
  have h1 := (h (sampleExistence [] none |> fun e => { e with Nonword := true })).mpr
    (by simp [sampleExistence])
  simp [Existence.word, sampleExistence] at h1

/-- C11 as amended: the predicate that `NewExistence` passes to `makeRegexp` is true
exactly when `Nonword` is false and `Tokens` is not empty; it is false whenever `Nonword`
is true and whenever `Tokens` is empty. `NewExistence` compiles the template that
`makeRegexp` returns for this value, filled with the tokens joined by `|`. -/
theorem newExistence_word (env : Env) (cfg : Config) (generic : baseCheck)
    (re : Option Regexp)
    (hdec : (env.decodeExistence generic).2 = none)
    (hexc : env.updateExceptions (env.decodeExistence generic).1.Exceptions
      cfg.AcceptedTokens = .ok re) :
    ((env.decodeExistence generic).1.word = true ↔
      (env.decodeExistence generic).1.Nonword = false ∧
        (env.decodeExistence generic).1.Tokens ≠ []) ∧
    ((env.decodeExistence generic).1.word = false ↔
      (env.decodeExistence generic).1.Nonword = true ∨
        (env.decodeExistence generic).1.Tokens = []) ∧
    (NewExistence env cfg generic).1.pattern =
      match env.CompileStd (env.Sprintf
        (env.makeRegexp cfg.WordTemplate (env.decodeExistence generic).1.IgnoreCase
          (decide ((env.decodeExistence generic).1.Nonword = false ∧
            (env.decodeExistence generic).1.Tokens ≠ []))
          (Join (env.decodeExistence generic).1.Raw "")
          (env.decodeExistence generic).1.Append)
        (Join (env.decodeExistence generic).1.Tokens "|")) with
      | .ok p => some p
      | .error _ => none := by
  have hw : (env.decodeExistence generic).1.word
      = decide ((env.decodeExistence generic).1.Nonword = false ∧
          (env.decodeExistence generic).1.Tokens ≠ []) := by
    simp only [Existence.word]
    cases (env.decodeExistence generic).1.Nonword <;>
      cases (env.decodeExistence generic).1.Tokens <;> simp
  refine ⟨by rw [hw]; simp, ?_, ?_⟩
  · rw [hw]
    cases (env.decodeExistence generic).1.Nonword <;>
      cases (env.decodeExistence generic).1.Tokens <;> simp
  · have hpath : (if (!(pathStringOk generic).2) = true then (pathStringOk generic).1 else "")
        = "" := by
      simp only [pathStringOk]
      cases generic.lookup "path" with
      | none => rfl
      | some v => cases v <;> rfl
    simp only [NewExistence, hdec, hexc, hpath]
    have hw2 : Existence.word { (env.decodeExistence generic).1 with
        exceptRe := re, pattern := none } = (env.decodeExistence generic).1.word := rfl
    rw [hw2, hw]
    cases env.CompileStd (env.Sprintf
        (env.makeRegexp cfg.WordTemplate (env.decodeExistence generic).1.IgnoreCase
          (decide ((env.decodeExistence generic).1.Nonword = false ∧
            (env.decodeExistence generic).1.Tokens ≠ []))
          (Join (env.decodeExistence generic).1.Raw "")
          (env.decodeExistence generic).1.Append)
        (Join (env.decodeExistence generic).1.Tokens "|")) <;> rfl

/-- Witness of C11 as amended: `Nonword = false` with an empty token list. -/
theorem newExistence_word_witness :
    ((decodingEnv.decodeExistence
        [("path", Value.str "styles/Docs/Terms.yml"), ("raw", Value.strs ["fo", "o"])]).1.word
        = false ↔
      (decodingEnv.decodeExistence
        [("path", Value.str "styles/Docs/Terms.yml"), ("raw", Value.strs ["fo", "o"])]).1.Nonword
        = true ∨
      (decodingEnv.decodeExistence
        [("path", Value.str "styles/Docs/Terms.yml"), ("raw", Value.strs ["fo", "o"])]).1.Tokens
        = []) :=
  (newExistence_word decodingEnv sampleConfig
    [("path", Value.str "styles/Docs/Terms.yml"), ("raw", Value.strs ["fo", "o"])] none
    rfl rfl).2.1

/-- C12, evaluated at a failing input: the configuration has the path
`styles/Docs/Terms.yml` and tokens whose pattern does not compile, and the error that
`NewExistence` returns is positioned at the empty path, line 1. -/
theorem newExistence_error_path_empty :
    pathStringOk [("path", Value.str "styles/Docs/Terms.yml"), ("tokens", Value.strs ["("])]
      = ("styles/Docs/Terms.yml", true) ∧
    (NewExistence rejectingEnv sampleConfig
      [("path", Value.str "styles/Docs/Terms.yml"), ("tokens", Value.strs ["("])]).2
      = some (ConfigError.E201FromPosition "error parsing regexp" "" 1) := by
  decide

/-- C14: when every match that the pattern reports is a span `[start, end]` with
`0 ≤ start ≤ end ≤` the length of the text, every alert of `Existence.Run` is
`makeAlert` of the rule's definition and one of these spans, unchanged; so, `makeAlert`
putting the span it is given into the alert, the span of every alert lies inside the
text. -/
theorem existence_run_spans_in_bounds (env : Env) (e : Existence) (re : Regexp)
    (txt : String) (alerts : List Alert) (hp : e.pattern = some re)
    (hbounds : ∀ loc, loc ∈ re.FindAllStringIndex txt →
      ∃ lo hi : Int, loc = [lo, hi] ∧ 0 ≤ lo ∧ lo ≤ hi ∧ hi ≤ (txt.length : Int))
    (hrun : e.Run env txt = some alerts) :
    (∀ a, a ∈ alerts → ∃ lo hi : Int, [lo, hi] ∈ re.FindAllStringIndex txt ∧
      a = env.makeAlert e.Definition [lo, hi] txt ∧
      0 ≤ lo ∧ lo ≤ hi ∧ hi ≤ (txt.length : Int)) ∧
    ((∀ chk loc t, (env.makeAlert chk loc t).Span = loc) →
      ∀ a, a ∈ alerts → ∃ lo hi : Int, a.Span = [lo, hi] ∧
        0 ≤ lo ∧ lo ≤ hi ∧ hi ≤ (txt.length : Int)) := by
  have hall : ∀ a, a ∈ alerts → ∃ lo hi : Int, [lo, hi] ∈ re.FindAllStringIndex txt ∧
      a = env.makeAlert e.Definition [lo, hi] txt ∧
      0 ≤ lo ∧ lo ≤ hi ∧ hi ≤ (txt.length : Int) := by
    intro a ha
    simp only [Existence.Run, hp, existence_loop_eq, List.nil_append, Option.some.injEq]
      at hrun
    subst hrun
    obtain ⟨loc, hloc, rfl⟩ := List.mem_map.mp ha
    have hmem := (List.mem_filter.mp hloc).1
    obtain ⟨lo, hi, rfl, h1, h2, h3⟩ := hbounds loc hmem
    exact ⟨lo, hi, hmem, rfl, h1, h2, h3⟩
  refine ⟨hall, fun hspan a ha => ?_⟩
  obtain ⟨lo, hi, _, rfl, h1, h2, h3⟩ := hall a ha
  exact ⟨lo, hi, hspan _ _ _, h1, h2, h3⟩

/-- Witness of C14: the matches of `foo bar foobar`. -/
theorem existence_run_spans_in_bounds_witness :
    (sampleExistence [[0, 3], [4, 7], [8, 14]] foobarException).Run sampleEnv
        "foo bar foobar"
      = some [sampleMakeAlert sampleDefinition [0, 3] "foo bar foobar",
              sampleMakeAlert sampleDefinition [4, 7] "foo bar foobar"] ∧
    ∀ a, a ∈ [sampleMakeAlert sampleDefinition [0, 3] "foo bar foobar",
              sampleMakeAlert sampleDefinition [4, 7] "foo bar foobar"] →
      ∃ lo hi : Int, a.Span = [lo, hi] ∧ 0 ≤ lo ∧ lo ≤ hi ∧
        hi ≤ (("foo bar foobar" : String).length : Int) :=
  ⟨rfl, (existence_run_spans_in_bounds sampleEnv
    (sampleExistence [[0, 3], [4, 7], [8, 14]] foobarException)
    (fixedRegexp "(?m)\\b(?:foo|bar)\\b" [[0, 3], [4, 7], [8, 14]]) "foo bar foobar"
    [sampleMakeAlert sampleDefinition [0, 3] "foo bar foobar",
     sampleMakeAlert sampleDefinition [4, 7] "foo bar foobar"]
    rfl
    (fun loc h => by
      have h2 : loc = [0, 3] ∨ loc = [4, 7] ∨ loc = [8, 14] := by
        simpa [fixedRegexp] using h
      rcases h2 with rfl | rfl | rfl
      · exact ⟨0, 3, rfl, by decide, by decide, by decide⟩
      · exact ⟨4, 7, rfl, by decide, by decide, by decide⟩
      · exact ⟨8, 14, rfl, by decide, by decide, by decide⟩)
    rfl).2 (fun _ _ _ => rfl)⟩

/-! ### `NewOccurrence` -/

/-- C16: for a configuration that decodes, the source that `NewOccurrence` compiles is
`(?:` + `Token` + `)`, with the marker `ignoreCase` in front exactly when `Ignorecase` is
true; when it compiles, `Pattern()` of the returned rule is that source (the `String()` of
a compiled pattern being the source it was compiled from); and another `Max` and `Min`
leave the result of `Pattern()` as it is. -/
theorem newOccurrence_pattern (env : Env) (ignoreCase : String) (cfg : Config)
    (generic : baseCheck) (path : String)
    (hpath : pathString generic = some path)
    (hdec : (env.decodeOccurrence generic).2 = none)
    (hsrc : ∀ src re, env.CompileStd src = .ok re → re.source = src) :
    NewOccurrence env ignoreCase cfg generic =
      (match env.CompileStd
        ((if (env.decodeOccurrence generic).1.Ignorecase then ignoreCase else "") ++
          ("(?:" ++ (env.decodeOccurrence generic).1.Token ++ ")")) with
      | .ok re => some ({ (env.decodeOccurrence generic).1 with pattern := some re }, none)
      | .error err =>
        some ({ (env.decodeOccurrence generic).1 with pattern := none },
          some (ConfigError.E201FromPosition err path 1))) ∧
    (∀ rule, NewOccurrence env ignoreCase cfg generic = some (rule, none) →
      rule.Pattern = some
        ((if (env.decodeOccurrence generic).1.Ignorecase then ignoreCase else "") ++
          ("(?:" ++ (env.decodeOccurrence generic).1.Token ++ ")"))) ∧
    (∀ max min : Int,
      (NewOccurrence
        { env with decodeOccurrence := fun g =>
            ({ (env.decodeOccurrence g).1 with Max := max, Min := min },
              (env.decodeOccurrence g).2) }
        ignoreCase cfg generic).map (fun r => (r.1.Pattern, r.2))
      = (NewOccurrence env ignoreCase cfg generic).map (fun r => (r.1.Pattern, r.2))) := by
  have hmain : NewOccurrence env ignoreCase cfg generic =
      (match env.CompileStd
        ((if (env.decodeOccurrence generic).1.Ignorecase then ignoreCase else "") ++
          ("(?:" ++ (env.decodeOccurrence generic).1.Token ++ ")")) with
      | .ok re => some ({ (env.decodeOccurrence generic).1 with pattern := some re }, none)
      | .error err =>
        some ({ (env.decodeOccurrence generic).1 with pattern := none },
          some (ConfigError.E201FromPosition err path 1))) := by
    simp only [NewOccurrence, hpath, hdec]
    cases (env.decodeOccurrence generic).1.Ignorecase <;>
      simp only [Bool.false_eq_true, if_false, if_true, String.append_empty,
        String.empty_append] <;>
      split <;> simp_all
  refine ⟨hmain, fun rule hrule => ?_, fun max min => ?_⟩
  · rw [hmain] at hrule
    cases hc : env.CompileStd
        ((if (env.decodeOccurrence generic).1.Ignorecase then ignoreCase else "") ++
          ("(?:" ++ (env.decodeOccurrence generic).1.Token ++ ")")) with
    | error err => rw [hc] at hrule; simp at hrule
    | ok re =>
      rw [hc] at hrule
      simp only [Option.some.injEq, Prod.mk.injEq, and_true] at hrule
      subst hrule
      simp [Occurrence.Pattern, hsrc _ _ hc]
  · simp only [NewOccurrence, hpath, hdec]
    cases env.CompileStd
        ((if (env.decodeOccurrence generic).1.Ignorecase then "" ++ ignoreCase else "") ++
          ("(?:" ++ (env.decodeOccurrence generic).1.Token ++ ")")) <;> rfl

/-- Witness of C16: the token `foo`, case-insensitive, with `Max = 3`. -/
theorem newOccurrence_pattern_witness :
    Occurrence.Pattern
      { (decodingEnv.decodeOccurrence
          [("path", Value.str "styles/Docs/Count.yml"), ("token", Value.str "foo"),
           ("ignorecase", Value.bool true), ("max", Value.int 3)]).1 with
        pattern := some (fixedRegexp "(?i)(?:foo)" []) }
      = some "(?i)(?:foo)" :=
  (newOccurrence_pattern decodingEnv "(?i)" sampleConfig
    [("path", Value.str "styles/Docs/Count.yml"), ("token", Value.str "foo"),
     ("ignorecase", Value.bool true), ("max", Value.int 3)]
    "styles/Docs/Count.yml" rfl rfl
    (fun src re h => by
      have h2 : Except.ok (fixedRegexp src []) = (Except.ok re : Except String Regexp) := h
      injection h2 with h3
      subst h3
      rfl)).2.1 _ rfl

/-! ### Construction without a `path` -/

/-- C17, evaluated at failing inputs: on a configuration without a `path` key, and on one
whose `path` is not a string, `NewOccurrence` and `NewSubstitution` panic; they panic
exactly when the type assertion on `path` fails. -/
theorem constructors_panic_without_path (env : Env) (ignoreCase : String) (cfg : Config) :
    NewOccurrence env ignoreCase cfg [("token", Value.str "foo")] = none ∧
    NewSubstitution env cfg [("swap", Value.pairs [("(?:foo)", "bar")])] = none ∧
    NewOccurrence env ignoreCase cfg [("path", Value.int 1), ("token", Value.str "foo")]
      = none ∧
    NewSubstitution env cfg [("path", Value.int 1), ("swap", Value.pairs [("(?:foo)", "bar")])]
      = none ∧
    (∀ generic, NewOccurrence env ignoreCase cfg generic = none ↔ pathString generic = none) ∧
    (∀ generic, NewSubstitution env cfg generic = none ↔ pathString generic = none) := by
  refine ⟨rfl, rfl, rfl, rfl, fun generic => ?_, fun generic => ?_⟩
  · cases hp : pathString generic with
    | none => simp [NewOccurrence, hp]
    | some path =>
      simp only [NewOccurrence, hp]
      constructor
      · intro h
        split at h
        · exact Option.noConfusion h
        · split at h <;> exact Option.noConfusion h
      · intro h
        exact Option.noConfusion h
  · cases hp : pathString generic with
    | none => simp [NewSubstitution, hp]
    | some path =>
      simp only [NewSubstitution, hp]
      constructor
      · intro h
        split at h
        · exact Option.noConfusion h
        · split at h
          · exact Option.noConfusion h
          · split at h
            · exact Option.noConfusion h
            · split at h <;> exact Option.noConfusion h
      · intro h
        exact Option.noConfusion h

/-! ### Running a rule twice -/

theorem runReceiver_snd (env : Env) (s : Substitution) (txt : String) :
    (Substitution.RunReceiver env s txt).map Prod.snd = s.Run env txt := by
  simp only [Substitution.RunReceiver, Substitution.Run]
  cases s.pattern with
  | none => rfl
  | some re =>
    simp only []
    cases re.MatchStringStd txt with
    | false => rfl
    | true =>
      simp only [Bool.not_true, Bool.false_eq_true, if_false]
      cases Substitution.eachMatch env txt (re.FindAllStringSubmatchIndex txt) (s, []) <;> rfl

/-- The body of `Substitution.Run` leaves its receiver as it found it, up to the message
template. -/
theorem runReceiver_final (env : Env) (s : Substitution) (txt : String)
    (st : Substitution × List Alert) (hst : s.RunReceiver env txt = some st) :
    ∃ msg, st.1 = s.withMessage msg := by
  simp only [Substitution.RunReceiver] at hst
  cases hp : s.pattern with
  | none => rw [hp] at hst; exact Option.noConfusion hst
  | some re =>
    rw [hp] at hst
    simp only [] at hst
    cases hm : re.MatchStringStd txt with
    | false =>
      simp only [hm, Bool.not_false, if_true, Option.some.injEq] at hst
      subst hst
      exact ⟨s.Definition.Message, rfl⟩
    | true =>
      simp only [hm, Bool.not_true, Bool.false_eq_true, if_false] at hst
      obtain ⟨h1, _⟩ := eachMatch_eq env s txt (re.FindAllStringSubmatchIndex txt)
        s.Definition.Message []
      rw [withMessage_self] at h1
      rcases h1 with h | h
      · rw [h] at hst; exact Option.noConfusion hst
      · rw [h] at hst
        have e2 := Option.some.inj hst
        subst e2
        exact ⟨_, rfl⟩

/-- After a call of `Substitution.Run` the caller's rule is the rule before the call: the
only thing the body changes is the message template of its own copy, a value. -/
theorem substitution_call_fst (env : Env) (s : Substitution) (txt : String) :
    (s.call env txt).1 = s := by
  simp only [Substitution.call]
  cases hst : Substitution.RunReceiver env s txt with
  | none => rfl
  | some st =>
    obtain ⟨msg, hmsg⟩ := runReceiver_final env s txt st hst
    simp only [hmsg]
    rfl

theorem substitution_call_snd (env : Env) (s : Substitution) (txt : String) :
    (s.call env txt).2 = s.Run env txt := by
  rw [← runReceiver_snd]
  simp only [Substitution.call]
  cases Substitution.RunReceiver env s txt <;> rfl

/-- C13: called twice on the same rule and text, `Run` returns the same alerts, for the
three kinds of rule. A call hands a copy of the caller's rule to the body of `Run`; after
the call the caller finds its value fields as they were and, behind its reference fields
(map, slices, pattern pointers), what the body left there. No body writes to a reference
field, and the body of `Substitution.Run` changes its copy in the message template only,
a value: the caller's rule after the call is the rule before it, and the second call
returns the alerts of the first, which are those of `Run`. -/
theorem run_twice_identical (env : Env) (e : Existence) (o : Occurrence) (s : Substitution)
    (txt : String) :
    ((e.call env txt).1 = e ∧ (e.call env txt).2 = e.Run env txt ∧
      ((e.call env txt).1.call env txt).2 = (e.call env txt).2) ∧
    ((o.call env txt).1 = o ∧ (o.call env txt).2 = o.Run env txt ∧
      ((o.call env txt).1.call env txt).2 = (o.call env txt).2) ∧
    ((s.call env txt).1 = s ∧ (s.call env txt).2 = s.Run env txt ∧
      ((s.call env txt).1.call env txt).2 = (s.call env txt).2 ∧
      (∀ st, s.RunReceiver env txt = some st →
        st.1 = s.withMessage st.1.Definition.Message ∧ s.afterCall st.1 = s)) := by
  have he1 : (e.call env txt).1 = e := by
    simp only [Existence.call, Existence.RunReceiver]
    cases e.Run env txt <;> rfl
  have ho1 : (o.call env txt).1 = o := by
    simp only [Occurrence.call, Occurrence.RunReceiver]
    cases o.Run env txt <;> rfl
  have hs1 := substitution_call_fst env s txt
  refine ⟨⟨he1, ?_, by rw [he1]⟩, ⟨ho1, ?_, by rw [ho1]⟩,
    hs1, substitution_call_snd env s txt, by rw [hs1], fun st hst => ?_⟩
  · simp only [Existence.call, Existence.RunReceiver]
    cases e.Run env txt <;> rfl
  · simp only [Occurrence.call, Occurrence.RunReceiver]
    cases o.Run env txt <;> rfl
  · obtain ⟨msg, hmsg⟩ := runReceiver_final env s txt st hst
    rw [hmsg]
    exact ⟨rfl, rfl⟩

/-- The rewrite of the message is real and stays in the copy: for the template
`''%s'' '%s'` the body of `Substitution.Run` ends with the template `%s '%s'` in its
receiver; the caller's rule after the call is the rule before it and the second call
returns the alerts of the first; with a pointer receiver the second call would not. -/
theorem run_rewrite_stays_in_copy :
    (nestedQuotesSubstitution.RunReceiver sampleEnv "I use NodeJS and javascript daily.").map
      (fun st => st.1.Definition.Message) = some "%s '%s'" ∧
    (nestedQuotesSubstitution.call sampleEnv "I use NodeJS and javascript daily.").1.Definition
      = nestedQuotesSubstitution.Definition ∧
    ((nestedQuotesSubstitution.call sampleEnv "I use NodeJS and javascript daily.").1.call
        sampleEnv "I use NodeJS and javascript daily.").2
      = (nestedQuotesSubstitution.call sampleEnv "I use NodeJS and javascript daily.").2 ∧
    (callByPointer (Substitution.RunReceiver sampleEnv)
      (callByPointer (Substitution.RunReceiver sampleEnv) nestedQuotesSubstitution
        "I use NodeJS and javascript daily.").1 "I use NodeJS and javascript daily.").2
      ≠ (callByPointer (Substitution.RunReceiver sampleEnv) nestedQuotesSubstitution
        "I use NodeJS and javascript daily.").2 := by
  refine ⟨by decide, by decide, rfl, by decide⟩

/-! ### `convertMessage` -/

theorem countFrom_skip (sub : List Char) (post : List Char) :
    ∀ xs : List Char, countFrom sub xs.length (xs ++ post) = countFrom sub 0 post := by
  intro xs
  induction xs with
  | nil => rfl
  | cons x xs ih => exact ih

theorem replaceFrom_skip (old new : List Char) (n : Nat) (post : List Char) :
    ∀ xs : List Char,
      replaceFrom old new n xs.length (xs ++ post) = replaceFrom old new n 0 post := by
  intro xs
  induction xs with
  | nil => rfl
  | cons x xs ih =>
    simp only [List.length_cons, List.cons_append]
    rw [← ih]
    cases n <;> rfl

theorem replaceFrom_zero (old new : List Char) (l : List Char) :
    replaceFrom old new 0 0 l = l := by
  cases l <;> rfl

theorem replaceFrom_hit (old new : List Char) (n : Nat) (c : Char) (cs : List Char)
    (h : old.isPrefixOf (c :: cs) = true) :
    replaceFrom old new (n + 1) 0 (c :: cs)
      = new ++ replaceFrom old new n (old.length - 1) cs := by
  simp [replaceFrom, h]

theorem replaceFrom_miss (old new : List Char) (n : Nat) (c : Char) (cs : List Char)
    (h : old.isPrefixOf (c :: cs) = false) :
    replaceFrom old new (n + 1) 0 (c :: cs) = c :: replaceFrom old new (n + 1) 0 cs := by
  simp [replaceFrom, h]

/-- The first occurrence of a non-empty `sub` in a list that holds one: the list splits
around it, `Count` counts it once and goes on behind it, and `Replace` rewrites it and
goes on behind it with one replacement less. -/
theorem first_occurrence (a : Char) (bs : List Char) :
    ∀ l : List Char, 0 < countFrom (a :: bs) 0 l →
      ∃ pre post, l = pre ++ (a :: bs) ++ post ∧
        (∀ i, i < pre.length → (a :: bs).isPrefixOf (l.drop i) = false) ∧
        countFrom (a :: bs) 0 l = 1 + countFrom (a :: bs) 0 post ∧
        ∀ (new : List Char) (n : Nat),
          replaceFrom (a :: bs) new (n + 1) 0 l
            = pre ++ new ++ replaceFrom (a :: bs) new n 0 post := by
  intro l
  induction l with
  | nil => intro h; simp [countFrom] at h
  | cons c cs ih =>
    intro h
    cases hp : (a :: bs).isPrefixOf (c :: cs) with
    | true =>
      obtain ⟨post, hpost⟩ := List.isPrefixOf_iff_prefix.mp hp
      have hcs : cs = bs ++ post := by
        simp only [List.cons_append, List.cons.injEq] at hpost
        exact hpost.2.symm
      refine ⟨[], post, by simp [← hpost], fun i hi => by simp at hi, ?_, fun new n => ?_⟩
      · rw [countFrom_zero_hit _ _ _ hp, hcs]
        simp only [List.length_cons, Nat.add_sub_cancel]
        rw [countFrom_skip]
      · rw [replaceFrom_hit _ _ _ _ _ hp, hcs]
        simp only [List.length_cons, Nat.add_sub_cancel, List.nil_append]
        rw [replaceFrom_skip]
    | false =>
      rw [countFrom_zero_miss _ _ _ hp] at h
      obtain ⟨pre, post, hl, hfirst, hcount, hrep⟩ := ih h
      refine ⟨c :: pre, post, by simp [hl], fun i hi => ?_, ?_, fun new n => ?_⟩
      · cases i with
        | zero => simpa using hp
        | succ j =>
          simp only [List.drop_succ_cons]
          exact hfirst j (by simpa using hi)
      · rw [countFrom_zero_miss _ _ _ hp, hcount]
      · rw [replaceFrom_miss _ _ _ _ _ hp, hrep]
        simp

theorem convertMessage_eq_steps (s : String) :
    convertMessage s = collapseStep "\"%s\"" (collapseStep "'%s'" s) := rfl

theorem collapseStep_collapses (form cur : String) (a : Char) (bs : List Char)
    (hform : form.data = a :: bs) (hne : form ≠ "%s") (hlen : bs.length = 3) :
    collapsesFirst form cur (collapseStep form cur) := by
  have hnil : ¬ form.data = [] := by rw [hform]; simp
  constructor
  · intro h2
    have hc : countFrom (a :: bs) 0 cur.data = 2 := by
      simpa [Count, hnil, hform] using h2
    obtain ⟨pre, post, hl, hfirst, hcount, hrep⟩ := first_occurrence a bs cur.data (by omega)
    have hout : (collapseStep form cur).data = pre ++ "%s".data ++ post := by
      simp only [collapseStep, h2, if_true, Replace]
      rw [if_neg (by simp [hne]), if_neg hnil, hform]
      simp only [Int.reduceLT, if_false, Int.toNat_one]
      rw [hrep, replaceFrom_zero]
    refine ⟨pre, post, by rw [hform]; exact hl, ?_, hout, ?_, ?_⟩
    · rw [hform]; exact hfirst
    · rw [hout, hl]
      simp [hlen]
      omega
    · have hpost : Count ⟨post⟩ form = countFrom (a :: bs) 0 post := by
        simp [Count, hform]
      rw [hpost]
      omega
  · intro h2
    simp [collapseStep, h2]

theorem collapseStep_single (cur : String) :
    collapsesFirst "'%s'" cur (collapseStep "'%s'" cur) :=
  collapseStep_collapses "'%s'" cur '\'' ['%', 's', '\''] rfl (by decide) rfl

theorem collapseStep_double (cur : String) :
    collapsesFirst "\"%s\"" cur (collapseStep "\"%s\"" cur) :=
  collapseStep_collapses "\"%s\"" cur '"' ['%', 's', '"'] rfl (by decide) rfl

theorem collapsesFirst_length (form cur out : String) (h : collapsesFirst form cur out) :
    out.data.length ≤ cur.data.length ∧
    (Count cur form = 2 → out.data.length + 2 = cur.data.length) := by
  by_cases h2 : Count cur form = 2
  · obtain ⟨pre, post, _, _, _, hlen, _⟩ := h.1 h2
    exact ⟨by omega, fun _ => hlen⟩
  · rw [h.2 h2]
    exact ⟨Nat.le_refl _, fun h3 => absurd h3 h2⟩

/-- The fixed points of `convertMessage` are the strings that hold neither quoted form
exactly twice. -/
theorem convertMessage_eq_self_iff (t : String) :
    convertMessage t = t ↔ Count t "'%s'" ≠ 2 ∧ Count t "\"%s\"" ≠ 2 := by
  rw [convertMessage_eq_steps]
  have hA := collapseStep_single t
  have hB := collapseStep_double (collapseStep "'%s'" t)
  have lA := collapsesFirst_length _ _ _ hA
  have lB := collapsesFirst_length _ _ _ hB
  constructor
  · intro h
    have hlen : (collapseStep "\"%s\"" (collapseStep "'%s'" t)).data.length = t.data.length := by
      rw [h]
    have h1 : Count t "'%s'" ≠ 2 := by
      intro h2
      have := lA.2 h2
      omega
    have e1 : collapseStep "'%s'" t = t := hA.2 h1
    rw [e1] at lB hlen
    refine ⟨h1, fun h2 => ?_⟩
    have := lB.2 h2
    omega
  · rintro ⟨h1, h2⟩
    have e1 : collapseStep "'%s'" t = t := hA.2 h1
    rw [e1]
    exact (collapseStep_double t).2 h2

/-- C15: `convertMessage` treats the single-quoted slot and then the double-quoted slot:
for each form, when the current string holds it exactly twice, the quotes of the first
occurrence are removed, the string gets two characters shorter and the rest, which holds
the second occurrence, is kept; otherwise the string is left as it is. When neither form
occurs exactly twice in `s`, `convertMessage s = s`. -/
theorem convertMessage_collapses (s : String) :
    ∃ t, collapsesFirst "'%s'" s t ∧ collapsesFirst "\"%s\"" t (convertMessage s) ∧
      (Count s "'%s'" ≠ 2 → Count s "\"%s\"" ≠ 2 → convertMessage s = s) :=
  ⟨collapseStep "'%s'" s, collapseStep_single s,
    by rw [convertMessage_eq_steps]; exact collapseStep_double _,
    fun h1 h2 => (convertMessage_eq_self_iff s).mpr ⟨h1, h2⟩⟩

/-- C18 as stated fails: `convertMessage` is not idempotent. On the template
`''%s'' '%s'` the first application gives `'%s' '%s'` and the second `%s '%s'`, and the two
alerts of one run of a rule with this template are formatted from these two different
templates. -/
theorem convertMessage_not_idempotent :
    ¬ (∀ s, convertMessage (convertMessage s) = convertMessage s) ∧
    convertMessage "''%s'' '%s'" = "'%s' '%s'" ∧
    convertMessage (convertMessage "''%s'' '%s'") = "%s '%s'" ∧
    nestedQuotesSubstitution.Run sampleEnv "I use NodeJS and javascript daily." = some
      [nestedQuotesSubstitution.alertFor sampleEnv "I use NodeJS and javascript daily."
          "'%s' '%s'" { group := 1, lo := 6, hi := 12, replacement := "Node.js" },
       nestedQuotesSubstitution.alertFor sampleEnv "I use NodeJS and javascript daily."
          "%s '%s'" { group := 2, lo := 17, hi := 27, replacement := "JavaScript" }] := by
  refine ⟨fun h => ?_, by decide, by decide, by decide⟩
  exact absurd (h "''%s'' '%s'") (by decide)

theorem emit_of_stable (env : Env) (s : Substitution) (txt : String) (msg : String)
    (hstable : s.nextMessage (s.nextMessage msg) = s.nextMessage msg) :
    ∀ hs : List Hit, Substitution.emit env s txt msg hs
      = hs.map (s.alertFor env txt (s.nextMessage msg)) := by
  intro hs
  induction hs generalizing msg with
  | nil => rfl
  | cons h rest ih =>
    simp only [Substitution.emit, List.map_cons]
    rw [ih (s.nextMessage msg) (by rw [hstable]; exact hstable), hstable]

/-- C18 as amended: `convertMessage (convertMessage t) = convertMessage t` holds exactly
when `convertMessage t` holds neither quoted form exactly twice. For a rule with a
parameterless `replace` action whose converted message is such a string, every alert of a
run is formatted from the one template `convertMessage Message`. -/
theorem convertMessage_idempotent_iff (env : Env) (s : Substitution) (re : Regexp)
    (txt : String) (alerts : List Alert)
    (hp : s.pattern = some re) (hrun : s.Run env txt = some alerts)
    (hact : s.Definition.Action.Name = "replace" ∧ s.Definition.Action.Params.length = 0)
    (h1 : Count (convertMessage s.Definition.Message) "'%s'" ≠ 2)
    (h2 : Count (convertMessage s.Definition.Message) "\"%s\"" ≠ 2) :
    (∀ t, convertMessage (convertMessage t) = convertMessage t ↔
      Count (convertMessage t) "'%s'" ≠ 2 ∧ Count (convertMessage t) "\"%s\"" ≠ 2) ∧
    convertMessage (convertMessage s.Definition.Message)
      = convertMessage s.Definition.Message ∧
    ∀ a, a ∈ alerts →
      ∃ h : Hit, a = s.alertFor env txt (convertMessage s.Definition.Message) h := by
  have hfix := (convertMessage_eq_self_iff (convertMessage s.Definition.Message)).mpr ⟨h1, h2⟩
  refine ⟨fun t => convertMessage_eq_self_iff (convertMessage t), hfix, fun a ha => ?_⟩
  have hnext : ∀ m, s.nextMessage m = convertMessage m := by
    intro m
    simp only [Substitution.nextMessage]
    rw [if_pos hact]
  cases hm : re.MatchStringStd txt with
  | false =>
    simp [Substitution.Run, hp, hm] at hrun
    subst hrun
    simp at ha
  | true =>
    obtain ⟨hr, _⟩ := run_eq_emit env s re txt hp hm
    rcases hr with h | h
    · rw [h] at hrun
      exact Option.noConfusion hrun
    · rw [h] at hrun
      have e := Option.some.inj hrun
      subst e
      rw [emit_of_stable env s txt _ (by rw [hnext, hnext, hfix])] at ha
      obtain ⟨hit, _, rfl⟩ := List.mem_map.mp ha
      exact ⟨hit, by rw [hnext]⟩

/-- Witness of C18 as amended: the template `Use '%s' instead of '%s'` and the two matches
of `I use NodeJS and javascript daily.`. -/
theorem convertMessage_idempotent_iff_witness :
    convertMessage (convertMessage "Use '%s' instead of '%s'")
      = convertMessage "Use '%s' instead of '%s'" ∧
    ∀ a, a ∈ [(sampleSubstitution sampleSubmatches).alertFor sampleEnv
                "I use NodeJS and javascript daily." "Use %s instead of '%s'"
                { group := 1, lo := 6, hi := 12, replacement := "Node.js" },
              (sampleSubstitution sampleSubmatches).alertFor sampleEnv
                "I use NodeJS and javascript daily." "Use %s instead of '%s'"
                { group := 2, lo := 17, hi := 27, replacement := "JavaScript" }] →
      ∃ h : Hit, a = (sampleSubstitution sampleSubmatches).alertFor sampleEnv
        "I use NodeJS and javascript daily."
        (convertMessage (sampleSubstitution sampleSubmatches).Definition.Message) h :=
  (convertMessage_idempotent_iff sampleEnv (sampleSubstitution sampleSubmatches)
    (fixedRegexp "(?i)(?m)\\b(?:((?:NodeJS))|((?:javascript)))\\b" sampleSubmatches)
    "I use NodeJS and javascript daily." _ rfl rfl ⟨rfl, rfl⟩ (by decide) (by decide)).2

end Vale
